import Mathlib

/-!
# ActivityFlow: timer, activity log store and diagram renderer

A shallow embedding of `src/timer.js`, `src/activityManager.js` and
`src/diagram.js`, followed by the properties checked against it.

Conventions of the embedding.

* Instants are integers counting milliseconds since the epoch. The text
  `new Date().toISOString()` keeps all of a `Date`, so the ISO string the
  timer stores is represented by the instant it denotes.
* Every read of the wall clock is an explicit argument.
* `duration` is an exact rational number of seconds (the source uses a
  double; rounding of the binary floating point format is not modelled).
-/

namespace ActivityFlow

/-! ## `src/timer.js` -/

/-- The four fields set by the constructor of `Timer`. `none` is `null`. -/
structure Timer where
  startTime : Option Int
  endTime : Option Int
  duration : ℚ
  isPaused : Bool
  deriving DecidableEq

namespace Timer

/-- The state built by `constructor()`. -/
def fresh : Timer :=
  { startTime := none, endTime := none, duration := 0, isPaused := false }

/-- Seconds between two instants: `(a - b) / 1000`. -/
def secondsBetween (a b : Int) : ℚ := ((a - b : Int) : ℚ) / 1000

/-- The method `start()`; `now` is the value of `new Date()`. -/
def start (t : Timer) (now : Int) : Timer :=
  { t with startTime := some now, isPaused := false }

/-- The method `pause()`; `now` is the value of `new Date()`. A stored start
time is a non-empty string, hence truthy exactly when it is not `null`. -/
def pause (t : Timer) (now : Int) : Timer :=
  match t.startTime with
  | some s =>
    if !t.isPaused then
      { t with duration := t.duration + secondsBetween now s, isPaused := true }
    else t
  | none => t

/-- The method `stop()`. The body reads the clock twice: `now₁` is the
reading stored in `endTime`, `now₂` the one used for the duration. -/
def stop (t : Timer) (now₁ now₂ : Int) : Timer :=
  match t.startTime with
  | some s =>
    if !t.isPaused then
      { t with endTime := some now₁, duration := t.duration + secondsBetween now₂ s }
    else t
  | none => t

/-- The method `getStartTime()`. -/
def getStartTime (t : Timer) : Option Int := t.startTime

/-- The method `getEndTime()`; `now` is the clock reading of the fallback. -/
def getEndTime (t : Timer) (now : Int) : Int :=
  match t.endTime with
  | some e => e
  | none => now

/-- The method `getDuration()`. -/
def getDuration (t : Timer) : ℚ := t.duration

end Timer

/-- A call of `start()` or `pause()` on a timer. -/
inductive TimerCall where
  | start
  | pause
  deriving DecidableEq, Repr

/-- One call together with the clock reading it observes. -/
abbrev TimedCall := TimerCall × Int

/-- Apply one call to a timer. -/
def applyCall (t : Timer) : TimedCall → Timer
  | (.start, now) => t.start now
  | (.pause, now) => t.pause now

/-- Apply a sequence of calls, oldest first. -/
def runCalls (t : Timer) (calls : List TimedCall) : Timer :=
  calls.foldl applyCall t

/-- Reference definition, following the specification: total length in
seconds of the running intervals of a call sequence. A running interval is a
span during which the timer is started and not paused: it opens at a
`start()` issued while the timer is not running, a further `start()` leaves it
open, and the next `pause()` closes it. `since` is the instant at which the
open interval began. -/
def runningTimeFrom : Option Int → ℚ → List TimedCall → ℚ
  | _, acc, [] => acc
  | none, acc, (.start, now) :: rest => runningTimeFrom (some now) acc rest
  | some s, acc, (.start, _) :: rest => runningTimeFrom (some s) acc rest
  | some s, acc, (.pause, now) :: rest =>
    runningTimeFrom none (acc + Timer.secondsBetween now s) rest
  | none, acc, (.pause, _) :: rest => runningTimeFrom none acc rest

/-- Reference definition: summed running intervals of a call sequence on a
fresh timer. -/
def runningTime (calls : List TimedCall) : ℚ := runningTimeFrom none 0 calls

/-- Reference definition: the sum, over the `pause()` calls that take
effect, of the time elapsed since the most recent `start()` before each. -/
def sinceLatestStartFrom : Option Int → ℚ → List TimedCall → ℚ
  | _, acc, [] => acc
  | _, acc, (.start, now) :: rest => sinceLatestStartFrom (some now) acc rest
  | some s, acc, (.pause, now) :: rest =>
    sinceLatestStartFrom none (acc + Timer.secondsBetween now s) rest
  | none, acc, (.pause, _) :: rest => sinceLatestStartFrom none acc rest

/-- Reference definition: `sinceLatestStartFrom` on a fresh timer. -/
def sinceLatestStart (calls : List TimedCall) : ℚ := sinceLatestStartFrom none 0 calls

/-- No `start()` of the sequence is issued while the timer is running
(`running` says whether it runs before the first call). -/
def startsOnlyWhenIdleFrom : Bool → List TimedCall → Bool
  | _, [] => true
  | running, (.start, _) :: rest => !running && startsOnlyWhenIdleFrom true rest
  | _, (.pause, _) :: rest => startsOnlyWhenIdleFrom false rest

/-- On a fresh timer, no `start()` is issued while the timer is running: each
one is preceded by no earlier `start()`, or by a `pause()` issued after the
latest earlier `start()`. This is how `commands.js` drives the timer. -/
def startsOnlyWhenIdle (calls : List TimedCall) : Bool := startsOnlyWhenIdleFrom false calls

/-- The clock readings of a call sequence never decrease. -/
def clockMonotone (calls : List TimedCall) : Prop :=
  (calls.map Prod.snd).Chain' (· ≤ ·)

/-- The open interval of the reference machine that matches a timer state. -/
def Timer.openSince (t : Timer) : Option Int :=
  if t.isPaused then none else t.startTime

/-! ## JavaScript values

The store and the renderer handle values read from a JSON document. The
embedding keeps the dynamic behaviour the source relies on: truthiness,
property reads that throw on `null`, strict equality and string conversion.
A finite number is represented by the decimal that `Number::toString`
derives from it, the shortest decimal that reads back as the same double: an
integer when that decimal has no fractional part, a `Fraction` otherwise.
Each double has one such decimal, so equal numbers are equal terms, and the
operations the program applies to a number (truth value, `===`, conversion to
a string, conversion to a date) are computed on the decimal. `NaN` and the
infinities do not occur in a JSON document.
-/

/-- A finite number that is not an integer: `digits / 10 ^ places`, negated
when `negative` holds. The last digit is not zero and there is at least one
decimal place, so each such number has one representation. -/
structure Fraction where
  negative : Bool
  digits : Nat
  places : Nat
  lastDigit : digits % 10 ≠ 0
  somePlaces : 0 < places
  deriving DecidableEq, Repr

/-- A finite number: an integer or a fraction. -/
inductive JsNumber where
  | whole (n : Int)
  | fraction (x : Fraction)
  deriving DecidableEq, Repr

namespace JsNumber

/-- The digits of an integer without its trailing zeros. -/
def significant (ds : List Char) : List Char :=
  ds.take (ds.length - (ds.reverse.takeWhile (· == '0')).length)

/-- The layout rules of `Number::toString` for the significant `digits` of a
positive number whose decimal point stands after `n` digits: plain digits
up to 21 integer digits, a leading `0.` down to `1e-6`, exponent notation
beyond. -/
def decimalText (digits : List Char) (n : Int) : List Char :=
  let k : Int := digits.length
  if k ≤ n ∧ n ≤ 21 then digits ++ List.replicate (n - k).toNat '0'
  else if 0 < n ∧ n ≤ 21 then digits.take n.toNat ++ '.' :: digits.drop n.toNat
  else if -6 < n ∧ n ≤ 0 then '0' :: '.' :: (List.replicate (-n).toNat '0' ++ digits)
  else
    let power := 'e' :: (if 0 < n - 1 then '+' else '-') :: Nat.toDigits 10 (n - 1).natAbs
    match digits with
    | [d] => d :: power
    | d :: rest => d :: '.' :: (rest ++ power)
    | [] => power

/-- The text of the absolute value. -/
def magnitudeText : JsNumber → List Char
  | whole n =>
    if n = 0 then ['0']
    else decimalText (significant (Nat.toDigits 10 n.natAbs)) (Nat.toDigits 10 n.natAbs).length
  | fraction x =>
    decimalText (Nat.toDigits 10 x.digits) ((Nat.toDigits 10 x.digits).length - (x.places : Int))

/-- Whether the number is below zero. -/
def isNegative : JsNumber → Bool
  | whole n => decide (n < 0)
  | fraction x => x.negative

/-- The operation `Number::toString`. -/
def text (x : JsNumber) : String :=
  String.mk (if x.isNegative then '-' :: x.magnitudeText else x.magnitudeText)

/-- The integer part, as `TimeClip` takes it from a number. -/
def trunc : JsNumber → Int
  | whole n => n
  | fraction x =>
    if x.negative then -((x.digits / 10 ^ x.places : Nat) : Int)
    else ((x.digits / 10 ^ x.places : Nat) : Int)

end JsNumber

/-- A value produced by `JSON.parse`. A number is `num n` when its decimal is
the integer `n` and `frac x` otherwise. An object is its list of own
properties in insertion order. -/
inductive Json where
  | null
  | bool (b : Bool)
  | num (n : Int)
  | frac (x : Fraction)
  | str (s : String)
  | arr (xs : List Json)
  | obj (kvs : List (String × Json))
  deriving Repr, Inhabited

/-- A value as the program sees it: `none` is `undefined`. -/
abbrev JsValue := Option Json

/-- The exceptions the modelled code can raise. -/
inductive JsError where
  | typeError
  | rangeError
  deriving DecidableEq, Repr

deriving instance DecidableEq for Except

namespace Json

/-- The conversion `ToBoolean`. -/
def truthy : Json → Bool
  | null => false
  | bool b => b
  | num n => n != 0
  | frac _ => true
  | str s => s != ""
  | arr _ => true
  | obj _ => true

/-- First own property named `k`. -/
def lookup (k : String) : List (String × Json) → JsValue
  | [] => none
  | (k', v) :: rest => if k' = k then some v else lookup k rest

/-- The read `v.k` on a value that is not `null`, for the property names the
program uses (`activities`, `id`, `tags`, `startTime`, `endTime`, `duration`,
`description`, `filesModified`, `includeFiles`): none of them is defined on
a prototype, so only an object can hold them. -/
def get (v : Json) (k : String) : JsValue :=
  match v with
  | obj kvs => lookup k kvs
  | _ => none

/-- The read `v.k`: a `TypeError` on `null`. -/
def read (v : Json) (k : String) : Except JsError JsValue :=
  match v with
  | null => .error .typeError
  | w => .ok (w.get k)

/-- Whether an object has an own property `k`. -/
def hasKey (k : String) (kvs : List (String × Json)) : Bool :=
  kvs.any (fun p => p.1 == k)

/-- The assignment `o.k = v` on the property list of an object: an existing
property keeps its place, a new one goes last. -/
def assign (k : String) (v : Json) : List (String × Json) → List (String × Json)
  | [] => [(k, v)]
  | (k', w) :: rest => if k' = k then (k', v) :: rest else (k', w) :: assign k v rest

mutual
/-- The conversion `ToString`. An object answers `[object Object]` through
the inherited `toString`; an own property of that name, never callable in
parsed JSON, makes the conversion throw. An array is joined with commas. -/
def toStr : Json → Except JsError String
  | null => .ok "null"
  | bool b => .ok (if b then "true" else "false")
  | num n => .ok (JsNumber.whole n).text
  | frac x => .ok (JsNumber.fraction x).text
  | str s => .ok s
  | arr xs => (String.intercalate ",") <$> elemStrs xs
  | obj kvs => if hasKey "toString" kvs then .error .typeError else .ok "[object Object]"
/-- The element texts `Array.prototype.join` concatenates: `null` gives the
empty text. -/
def elemStrs : List Json → Except JsError (List String)
  | [] => .ok []
  | x :: xs =>
    match (match x with | null => Except.ok "" | y => toStr y) with
    | .error e => .error e
    | .ok s =>
      match elemStrs xs with
      | .error e => .error e
      | .ok ss => .ok (s :: ss)
end

/-- The call `xs.join(sep)` on an array. -/
def join (sep : String) (xs : List Json) : Except JsError String :=
  (String.intercalate sep) <$> elemStrs xs

/-- Whether a value is a JSON object, the shape of an activity record. -/
def isRecord : Json → Bool
  | obj _ => true
  | _ => false

/-- The JSON value of a number. -/
def ofNumber : JsNumber → Json
  | .whole n => num n
  | .fraction x => frac x

/-- Whether a value is the string `t`. -/
def isStr (t : String) : Json → Bool
  | str s => s == t
  | _ => false

end Json

/-- A substitution `${x}` of a template literal. -/
def templateText : JsValue → Except JsError String
  | none => .ok "undefined"
  | some v => v.toStr

/-- The operator `===` between a value read from the parsed document and a
value supplied by the caller. Primitives compare by value; an array or
object of the document is never the same allocation as one of the caller. -/
def strictEq : JsValue → JsValue → Bool
  | none, none => true
  | some .null, some .null => true
  | some (.bool a), some (.bool b) => a == b
  | some (.num a), some (.num b) => a == b
  | some (.frac a), some (.frac b) => a == b
  | some (.str a), some (.str b) => a == b
  | _, _ => false

/-- The call `xs.findIndex(p)` with a callback that may throw; `none` is `-1`. -/
def findIndexE (p : Json → Except JsError Bool) : List Json → Except JsError (Option Nat)
  | [] => .ok none
  | a :: rest =>
    match p a with
    | .error e => .error e
    | .ok true => .ok (some 0)
    | .ok false =>
      match findIndexE p rest with
      | .error e => .error e
      | .ok r => .ok (r.map (· + 1))

/-- The call `xs.filter(p)` with a callback that may throw. -/
def filterE (p : Json → Except JsError Bool) : List Json → Except JsError (List Json)
  | [] => .ok []
  | a :: rest =>
    match p a with
    | .error e => .error e
    | .ok b =>
      match filterE p rest with
      | .error e => .error e
      | .ok r => .ok (if b then a :: r else r)

/-- The call `xs.map(f)` with a callback that builds a string and may throw. -/
def mapE (f : Json → Except JsError String) : List Json → Except JsError (List String)
  | [] => .ok []
  | a :: rest =>
    match f a with
    | .error e => .error e
    | .ok s =>
      match mapE f rest with
      | .error e => .error e
      | .ok r => .ok (s :: r)

/-- Whether `needle` occurs in `hay` as a contiguous run. -/
def occursIn (needle : List Char) : List Char → Bool
  | [] => needle.isEmpty
  | c :: rest => needle.isPrefixOf (c :: rest) || occursIn needle rest

/-! ## `src/activityManager.js`

The backing file is represented by what reading and parsing it yields, and
`JSON.parse (JSON.stringify v)` is taken to give `v` back for the values the
store writes. File writes succeed.
-/

/-- What `fs.readFile` followed by `JSON.parse` makes of the log file. -/
inductive FileContent where
  | unreadable
  | blank
  | malformed
  | document (v : Json)
  deriving Repr, Inhabited

/-- The two files the store touches: the activity log
`.vscode/activity-log.json` and the export `activity-log.csv` (`none` while it
has not been written). -/
structure Disk where
  log : FileContent
  csv : Option String
  deriving Repr, Inhabited

namespace ActivityManager

/-- The method `getActivities()`: every failure inside the `try` block yields
the empty list. -/
def getActivities (d : Disk) : List Json :=
  match d.log with
  | .unreadable => []
  | .blank => []
  | .malformed => []
  | .document v =>
    match v.read "activities" with
    | .error _ => []
    | .ok (some (.arr xs)) => xs
    | .ok _ => []

/-- The method `saveActivities(activities)`. -/
def saveActivities (d : Disk) (activities : List Json) : Disk :=
  { d with log := .document (.obj [("activities", .arr activities)]) }

/-- The method `addActivity(activity)`. -/
def addActivity (d : Disk) (activity : Json) : Disk :=
  saveActivities d (getActivities d ++ [activity])

/-- The callback `(a) => a.id === other`, where reading `other` may itself
throw. -/
def idIs (other : Except JsError JsValue) (a : Json) : Except JsError Bool :=
  match a.read "id" with
  | .error e => .error e
  | .ok x =>
    match other with
    | .error e => .error e
    | .ok y => .ok (strictEq x y)

/-- The callback `(a) => a.id !== id`. -/
def idIsNot (id : JsValue) (a : Json) : Except JsError Bool :=
  match a.read "id" with
  | .error e => .error e
  | .ok x => .ok (!strictEq x id)

/-- The method `updateActivity(updatedActivity)`. -/
def updateActivity (d : Disk) (updatedActivity : Json) : Except JsError Disk :=
  let activities := getActivities d
  match findIndexE (idIs (updatedActivity.read "id")) activities with
  | .error e => .error e
  | .ok none => .ok d
  | .ok (some index) => .ok (saveActivities d (activities.set index updatedActivity))

/-- The method `deleteActivity(id)`; `confirmation` is what the warning
dialog resolves to (`none` when it is dismissed). -/
def deleteActivity (d : Disk) (confirmation : Option String) (id : JsValue) :
    Except JsError Disk :=
  if confirmation = some "Yes" then
    match filterE (idIsNot id) (getActivities d) with
    | .error e => .error e
    | .ok filteredActivities => .ok (saveActivities d filteredActivities)
  else .ok d

/-- The method `deleteAllActivities()`. -/
def deleteAllActivities (d : Disk) (confirmation : Option String) : Disk :=
  if confirmation = some "Yes" then saveActivities d [] else d

/-- First line of the export. -/
def csvHeader : String :=
  "ID,Start Time,End Time,Duration (seconds),Description,Files Modified"

/-- The text `(activity.filesModified || []).join(';')`: only an array has a
callable `join`. -/
def filesText (filesModified : JsValue) : Except JsError String :=
  match filesModified with
  | none => .ok ""
  | some v =>
    if v.truthy then
      match v with
      | .arr xs => Json.join ";" xs
      | _ => .error .typeError
    else .ok ""

/-- The template literal that builds one row of the export. -/
def csvRow (activity : Json) : Except JsError String := do
  let id ← templateText (← activity.read "id")
  let startTime ← templateText (← activity.read "startTime")
  let endTime ← templateText (← activity.read "endTime")
  let duration ← templateText (← activity.read "duration")
  let description ← templateText (← activity.read "description")
  let files ← filesText (← activity.read "filesModified")
  pure (id ++ ",\"" ++ startTime ++ "\",\"" ++ endTime ++ "\"," ++ duration ++ ",\"" ++
    description ++ "\",\"" ++ files ++ "\"")

/-- The method `exportActivitiesToCSV()`. -/
def exportActivitiesToCSV (d : Disk) : Except JsError Disk :=
  let activities := getActivities d
  if activities.length = 0 then .ok d
  else
    match mapE csvRow activities with
    | .error e => .error e
    | .ok rows => .ok { d with csv := some (String.intercalate "\n" (csvHeader :: rows)) }

/-- The statements `activity.tags = activity.tags || []; activity.tags.push(tag)`
on the record found. The class body is strict code, so the assignment throws
on a primitive; a property set on an array is not an element and is dropped
when the list is written back. -/
def pushTag (activity : Json) (tag : Json) : Except JsError Json :=
  let tags : Json :=
    match activity.get "tags" with
    | some v => if v.truthy then v else .arr []
    | none => .arr []
  match activity with
  | .obj kvs =>
    match tags with
    | .arr ts => .ok (.obj (Json.assign "tags" (.arr (ts ++ [tag])) kvs))
    | _ => .error .typeError
  | .arr xs => .ok (.arr xs)
  | _ => .error .typeError

/-- The method `addTagToActivity(activityId, tag)`. -/
def addTagToActivity (d : Disk) (activityId : JsValue) (tag : Json) : Except JsError Disk :=
  let activities := getActivities d
  match findIndexE (idIs (.ok activityId)) activities with
  | .error e => .error e
  | .ok none => .ok d
  | .ok (some index) =>
    match activities.get? index with
    | none => .ok d
    | some activity =>
      if activity.truthy then
        match pushTag activity tag with
        | .error e => .error e
        | .ok updated => .ok (saveActivities d (activities.set index updated))
      else .ok d

/-- The callback `(a) => a.tags && a.tags.includes(tag)`, as the truth value
`filter` takes from it. On an array `includes` compares elements with
`SameValueZero`; on a string it searches for the text of `tag`; nothing else
has a callable `includes`. -/
def hasTag (tag : Json) (a : Json) : Except JsError Bool :=
  match a.read "tags" with
  | .error e => .error e
  | .ok none => .ok false
  | .ok (some tags) =>
    if tags.truthy then
      match tags with
      | .arr ts => .ok (ts.any (fun x => strictEq (some x) (some tag)))
      | .str s =>
        match tag.toStr with
        | .error e => .error e
        | .ok needle => .ok (occursIn needle.data s.data)
      | _ => .error .typeError
    else .ok false

/-- The method `filterActivitiesByTag(tag)`: the records returned, and the
disk as the call leaves it. -/
def filterActivitiesByTag (d : Disk) (tag : Json) : Except JsError (List Json × Disk) :=
  match filterE (hasTag tag) (getActivities d) with
  | .error e => .error e
  | .ok r => .ok (r, d)

end ActivityManager

/-! ## Dates of the host

`Date` values are instants in milliseconds, `none` being the invalid date.
`toISOString` is computed as ECMAScript prescribes; how a string is parsed
depends on the engine and on the time zone of the machine and is a parameter.
Text is handled as lists of characters.
-/

namespace JsDate

/-- Milliseconds in a day. -/
def msPerDay : Int := 86400000

/-- The operation `TimeClip`: instants beyond 100 000 000 days from the epoch
are invalid. -/
def timeClip (t : Int) : Option Int :=
  if -8640000000000000 ≤ t ∧ t ≤ 8640000000000000 then some t else none

/-- Year, month (1 to 12) and day of the month of a day number counted from
the epoch, in the proleptic Gregorian calendar. -/
def civilOfDays (days : Int) : Int × Nat × Nat :=
  let z := days + 719468
  let era := z / 146097
  let doe := (z % 146097).toNat
  let yoe := (doe - doe / 1460 + doe / 36524 - doe / 146096) / 365
  let doy := doe - (365 * yoe + yoe / 4 - yoe / 100)
  let mp := (5 * doy + 2) / 153
  let d := doy - (153 * mp + 2) / 5 + 1
  let m := if mp < 10 then mp + 3 else mp - 9
  let y := (yoe : Int) + era * 400
  (if m ≤ 2 then y + 1 else y, m, d)

/-- Day number of a calendar date, inverse of `civilOfDays`. -/
def daysOfCivil (y : Int) (m d : Nat) : Int :=
  let y' := if m ≤ 2 then y - 1 else y
  let era := y' / 400
  let yoe := (y' % 400).toNat
  let mp := if m > 2 then m - 3 else m + 9
  let doy := (153 * mp + 2) / 5 + d - 1
  let doe := yoe * 365 + yoe / 4 - yoe / 100 + doy
  era * 146097 + (doe : Int) - 719468

/-- The last `width` decimal digits of `n`, zero padded. -/
def pad (width n : Nat) : List Char :=
  (List.range width).reverse.map (fun i => Nat.digitChar (n / 10 ^ i % 10))

/-- Year part of `toISOString`: four digits from 0 to 9999, otherwise a sign
and six digits. -/
def yearText (y : Int) : List Char :=
  if 0 ≤ y ∧ y ≤ 9999 then pad 4 y.toNat
  else if y < 0 then '-' :: pad 6 (-y).toNat
  else '+' :: pad 6 y.toNat

/-- The method `toISOString()` of a valid date. -/
def toISOString (t : Int) : List Char :=
  let days := t / msPerDay
  let ms := (t % msPerDay).toNat
  let (y, m, d) := civilOfDays days
  yearText y ++ '-' :: pad 2 m ++ '-' :: pad 2 d ++ 'T' :: pad 2 (ms / 3600000) ++
    ':' :: pad 2 (ms / 60000 % 60) ++ ':' :: pad 2 (ms / 1000 % 60) ++
    '.' :: pad 3 (ms % 1000) ++ ['Z']

/-- Decimal text of a clock reading or a position, as
`Number.prototype.toString` prints an integer below `10 ^ 21`. -/
def intText (n : Int) : List Char :=
  if n < 0 then '-' :: Nat.toDigits 10 (-n).toNat else Nat.toDigits 10 n.toNat

/-- The value of a run of decimal digits. -/
def digitsValue : List Char → Option Nat
  | [] => none
  | cs =>
    if cs.all Char.isDigit then some (cs.foldl (fun n c => 10 * n + (c.toNat - 48)) 0)
    else none

/-- The fields of a text laid out as `YYYY-MM-DD?HH:mm:ss`, where `?` is the
separator `sep`: milliseconds from the epoch of that wall-clock reading. -/
def readStamp (sep : Char) (cs : List Char) : Option Int := do
  let y ← digitsValue (cs.take 4)
  let m ← digitsValue ((cs.drop 5).take 2)
  let d ← digitsValue ((cs.drop 8).take 2)
  let h ← digitsValue ((cs.drop 11).take 2)
  let n ← digitsValue ((cs.drop 14).take 2)
  let s ← digitsValue ((cs.drop 17).take 2)
  if cs.get? 4 = some '-' ∧ cs.get? 7 = some '-' ∧ cs.get? 10 = some sep ∧
      cs.get? 13 = some ':' ∧ cs.get? 16 = some ':' ∧
      1 ≤ m ∧ m ≤ 12 ∧ 1 ≤ d ∧ d ≤ 31 ∧ h < 24 ∧ n < 60 ∧ s < 60 then
    some (daysOfCivil y m d * msPerDay + (h * 3600000 + n * 60000 + s * 1000 : Nat))
  else none

/-- A parser for the examples: `Date.parse` on a machine whose local time is
`offsetMinutes` ahead of UTC. It reads the layouts `YYYY-MM-DDTHH:mm:ssZ`
and `YYYY-MM-DDTHH:mm:ss.000Z` as UTC and, as V8 does for a date and a time
without zone designator, `YYYY-MM-DD HH:mm:ss` as local time. Everything else
is rejected, also texts that V8 reads, such as a year of six digits or
milliseconds other than `000`: on those this host stands for an engine
stricter than V8. -/
def sampleParse (offsetMinutes : Int) (s : String) : Option Int :=
  let cs := s.data
  if cs.length = 19 then
    (readStamp ' ' cs).map (fun t => t - offsetMinutes * 60000)
  else if cs.drop 19 = ['Z'] ∨ cs.drop 19 = ['.', '0', '0', '0', 'Z'] then
    readStamp 'T' (cs.take 19)
  else none

end JsDate

/-- What the renderer takes from its environment: `Date.parse` (`none` is
`NaN`) and the clock. `clock index slot` is the reading made while the record
at position `index` is rendered: slot 0 for the start, 1 for the end, 2 for
`Date.now()` in the description. -/
structure Host where
  parse : String → Option Int
  clock : Nat → Nat → Int

/-- A host for the examples: `offsetMinutes` ahead of UTC, with a clock that
stands at `now`. -/
def sampleHost (offsetMinutes now : Int) : Host :=
  { parse := JsDate.sampleParse offsetMinutes, clock := fun _ _ => now }

/-! ## `src/diagram.js` -/

namespace Diagram

/-- The class `\s` of a regular expression, which is also what `trim()` strips. -/
def isSpace (c : Char) : Bool :=
  c = '\t' || c = '\n' || c = Char.ofNat 0x0b || c = Char.ofNat 0x0c || c = '\r' || c = ' ' ||
  c = Char.ofNat 0xa0 || c = Char.ofNat 0x1680 ||
  (0x2000 ≤ c.toNat && c.toNat ≤ 0x200a) ||
  c = Char.ofNat 0x2028 || c = Char.ofNat 0x2029 || c = Char.ofNat 0x202f ||
  c = Char.ofNat 0x205f || c = Char.ofNat 0x3000 || c = Char.ofNat 0xfeff

/-- The call `text.replace(/c/g, by)` for a single character `c`. -/
def replaceChar (c : Char) (new : List Char) : List Char → List Char
  | [] => []
  | x :: rest => if x = c then new ++ replaceChar c new rest else x :: replaceChar c new rest

/-- The call `text.replace(/\s+/g, '_')`; `inRun` says whether the previous
character was white space. -/
def collapseSpaces : Bool → List Char → List Char
  | _, [] => []
  | inRun, x :: rest =>
    if isSpace x then
      if inRun then collapseSpaces true rest else '_' :: collapseSpaces true rest
    else x :: collapseSpaces false rest

/-- The method `trim()`. -/
def trim (cs : List Char) : List Char :=
  ((cs.dropWhile isSpace).reverse.dropWhile isSpace).reverse

/-- The chain of replacements of `escapeMermaidText` on a non-empty string. -/
def escapeChain (text : List Char) : List Char :=
  trim (collapseSpaces false
    (replaceChar ',' ['\\', ',']
      (replaceChar ';' ['\\', ';']
        (replaceChar '#' ['\\', '#']
          (replaceChar '\n' [' ']
            (replaceChar '\\' ['/']
              (replaceChar ':' ['_']
                (replaceChar '"' ['\\', '"'] text))))))))

/-- The function `escapeMermaidText(text)`; `now` is the value of `Date.now()`. -/
def escapeMermaidText (now : Int) (text : Json) : List Char :=
  match text with
  | .str s => if s = "" then "Activity_".data ++ JsDate.intText now else escapeChain s.data
  | _ => "Activity_".data ++ JsDate.intText now

/-- The expression `d.toISOString().replace('T', ' ').substring(0, 19)`. -/
def stampText (t : Int) : List Char :=
  ((JsDate.toISOString t).replace 'T' ' ').take 19

/-- The constructor call `new Date(v)` on a value of the document: a string
is parsed, a number or boolean is an instant, an array or object is first
converted to a string. -/
def dateOf (h : Host) (v : Json) : Except JsError (Option Int) :=
  match v with
  | .null => .ok (some 0)
  | .bool b => .ok (some (if b then 1 else 0))
  | .num n => .ok (JsDate.timeClip n)
  | .frac x => .ok (JsDate.timeClip (JsNumber.fraction x).trunc)
  | .str s => .ok ((h.parse s).bind JsDate.timeClip)
  | w =>
    match w.toStr with
    | .error e => .error e
    | .ok s => .ok ((h.parse s).bind JsDate.timeClip)

/-- The function `formatDate(dateStr)` on a value of the document; `now` is
the clock reading of the fallback. -/
def formatDate (h : Host) (now : Int) (dateStr : Json) : Except JsError (List Char) :=
  if !dateStr.truthy then .ok (stampText now)
  else
    match dateOf h dateStr with
    | .error e => .error e
    | .ok none => .ok (stampText now)
    | .ok (some t) => .ok (stampText t)

/-- The expression `x ? formatDate(x) : formatDate(new Date())` for a field `x`
of the record. -/
def fieldStamp (h : Host) (now : Int) (x : JsValue) : Except JsError (List Char) :=
  match x with
  | some v => if v.truthy then formatDate h now v else .ok (stampText now)
  | none => .ok (stampText now)

/-- The test `!activity || typeof activity !== 'object'` negated: arrays and
objects pass. -/
def isValidActivity : Json → Bool
  | .arr _ => true
  | .obj _ => true
  | _ => false

/-- The end date after the tie-break: `startDate` and `endDate` are the
re-parsed texts; a comparison with an invalid date is false. -/
def adjustEnd (startDate endDate : Option Int) : Option Int :=
  match startDate, endDate with
  | some s, some e => if s ≥ e then JsDate.timeClip (s + 1000) else some e
  | _, e => e

/-- The test `activity.includeFiles && Array.isArray(activity.filesModified) &&
activity.filesModified.length > 0`. -/
def showsFiles (activity : Json) : Bool :=
  match activity.get "includeFiles" with
  | some v =>
    v.truthy &&
      (match activity.get "filesModified" with
       | some (.arr xs) => decide (xs.length > 0)
       | _ => false)
  | none => false

/-- The text `activity.description || "Activity_" + (index + 1)`. -/
def descriptionOf (index : Nat) (activity : Json) : Json :=
  let fallback : Json := .str (String.mk ("Activity_".data ++ Nat.toDigits 10 (index + 1)))
  match activity.get "description" with
  | some v => if v.truthy then v else fallback
  | none => fallback

/-- The lines built for one record: the task row, followed on a second line by
the files row when `withFiles` holds. -/
def taskBlock (description id startTime endText : List Char) (withFiles : Bool) : List Char :=
  let taskLine := "    ".data ++ description ++ " :".data ++ id ++ ", ".data ++ startTime ++
    ", ".data ++ endText
  let filesLine := "    Files :f".data ++ id ++ ", ".data ++ startTime ++ ", ".data ++ endText
  if withFiles then taskLine ++ '\n' :: filesLine else taskLine

/-- The callback of `map` on a valid record at position `index`. Calling
`toISOString` on an invalid end date throws a `RangeError`. -/
def renderActivity (h : Host) (index : Nat) (activity : Json) :
    Except JsError (List Char) :=
  match fieldStamp h (h.clock index 0) (activity.get "startTime") with
  | .error e => .error e
  | .ok startTime =>
    match fieldStamp h (h.clock index 1) (activity.get "endTime") with
    | .error e => .error e
    | .ok endTime =>
      let description := escapeMermaidText (h.clock index 2) (descriptionOf index activity)
      let id := "task".data ++ Nat.toDigits 10 index
      let startDate := (h.parse (String.mk startTime)).bind JsDate.timeClip
      let endDate := adjustEnd startDate ((h.parse (String.mk endTime)).bind JsDate.timeClip)
      match endDate with
      | none => .error .rangeError
      | some e => .ok (taskBlock description id startTime (stampText e) (showsFiles activity))

/-- The callback of `map`: an invalid element gives the empty text. -/
def renderElement (h : Host) (index : Nat) (activity : Json) : Except JsError (List Char) :=
  if isValidActivity activity then renderActivity h index activity else .ok []

/-- The call `.map(callback)` over the elements, from position `index` on. -/
def renderElements (h : Host) : Nat → List Json → Except JsError (List (List Char))
  | _, [] => .ok []
  | index, a :: rest =>
    match renderElement h index a with
    | .error e => .error e
    | .ok block =>
      match renderElements h (index + 1) rest with
      | .error e => .error e
      | .ok blocks => .ok (block :: blocks)

/-- The call `parts.join('\n')` on texts. -/
def joinLines : List (List Char) → List Char
  | [] => []
  | [x] => x
  | x :: y :: rest => x ++ '\n' :: joinLines (y :: rest)

/-- The lines before the task rows. -/
def preamble : List Char :=
  ("\ngantt\n    title Activity Timeline\n    dateFormat YYYY-MM-DD HH:mm:ss\n" ++
    "    axisFormat %H:%M:%S\n    section Activities\n").data

/-- The row used when no task was rendered. -/
def placeholderRow : List Char :=
  "    No_activities_logged :noact, 2025-01-01 00:00:00, 2025-01-01 00:00:01".data

/-- The text after the task rows. -/
def closing : List Char := "\n    ".data

/-- The elements the renderer walks: those of an array, none otherwise. -/
def elementsOf : JsValue → List Json
  | some (.arr xs) => xs
  | _ => []

/-- The method `generateMermaidDiagram(activities)`. -/
def generateMermaidDiagram (h : Host) (activities : JsValue) : Except JsError String :=
  match renderElements h 0 (elementsOf activities) with
  | .error e => .error e
  | .ok blocks =>
    let tasks := joinLines (blocks.filter (fun b => !b.isEmpty))
    .ok (String.mk (preamble ++ (if tasks.isEmpty then placeholderRow else tasks) ++ closing))

end Diagram

/-! ## Reference definitions for the renderer -/

/-- A colon immediately followed by the letter `n` occurs in the text, as in
the task id `:noact` of the placeholder row. -/
def hasColonN : List Char → Bool
  | [] => false
  | c :: rest => (c == ':' && rest.head? == some 'n') || hasColonN rest

/-! ## Reference definitions for the store -/

/-- The shape of a stored activity record as far as tags go: a JSON object
whose `tags`, when present, is an array. -/
def Json.isActivity : Json → Bool
  | .obj kvs =>
    match Json.lookup "tags" kvs with
    | none => true
    | some (.arr _) => true
    | some _ => false
  | _ => false

/-- The tags of a record; the empty sequence when it has none. -/
def tagsOf (a : Json) : List Json :=
  match a.get "tags" with
  | some (.arr ts) => ts
  | _ => []

/-- Reference definition: the `tags` sequence of the record has an element
equal to the string `t`. -/
def carriesTag (t : String) (a : Json) : Bool :=
  match a.get "tags" with
  | some (.arr ts) => ts.any (Json.isStr t)
  | _ => false

/-- The fields of an activity record that the export prints, with the types
the data model gives them: `duration` is any finite number, `filesModified`
may be absent. -/
structure CsvFields where
  id : String
  startTime : String
  endTime : String
  duration : JsNumber
  description : String
  filesModified : Option (List String)

/-- The stored record `a` holds the fields `f`. -/
def holdsFields (a : Json) (f : CsvFields) : Prop :=
  a.isRecord = true ∧
  a.get "id" = some (.str f.id) ∧
  a.get "startTime" = some (.str f.startTime) ∧
  a.get "endTime" = some (.str f.endTime) ∧
  a.get "duration" = some (Json.ofNumber f.duration) ∧
  a.get "description" = some (.str f.description) ∧
  a.get "filesModified" = f.filesModified.map (fun files => Json.arr (files.map Json.str))

/-- Reference definition, following the specification: the row
`id,"startTime","endTime",duration,"description","files joined by ;"`. -/
def specCsvRow (f : CsvFields) : String :=
  f.id ++ ",\"" ++ f.startTime ++ "\",\"" ++ f.endTime ++ "\"," ++ f.duration.text ++
    ",\"" ++ f.description ++ "\",\"" ++ String.intercalate ";" (f.filesModified.getD []) ++ "\""

/-- Reference definition: the header and one row per record, newline-joined. -/
def specCsv (fs : List CsvFields) : String :=
  String.intercalate "\n" (ActivityManager.csvHeader :: fs.map specCsvRow)

/-! ## Call sequences

Sequences of calls on the timer (now with `stop()`) and on the store, as the
commands of `commands.js` issue them.
-/

/-- A call on the timer with the clock readings it observes; `stop()` reads
the clock twice. -/
inductive TimerOp where
  | start (now : Int)
  | pause (now : Int)
  | stop (now₁ now₂ : Int)
  deriving DecidableEq, Repr

/-- Apply one call to a timer. -/
def applyOp (t : Timer) : TimerOp → Timer
  | .start now => t.start now
  | .pause now => t.pause now
  | .stop now₁ now₂ => t.stop now₁ now₂

/-- Apply a sequence of calls, oldest first. -/
def runOps (t : Timer) (ops : List TimerOp) : Timer :=
  ops.foldl applyOp t

/-- The clock readings of a sequence of calls, in the order they are made. -/
def opReadings : List TimerOp → List Int
  | [] => []
  | .start now :: rest => now :: opReadings rest
  | .pause now :: rest => now :: opReadings rest
  | .stop now₁ now₂ :: rest => now₁ :: now₂ :: opReadings rest

/-- A mutating call on the store. For the two confirmed operations `answer`
is what the dialog resolves to. -/
inductive StoreCall where
  | append (record : Json)
  | update (record : Json)
  | remove (answer : Option String) (id : JsValue)
  | removeAll (answer : Option String)
  | addTag (id : JsValue) (tag : Json)

/-- The disk after one call. A call that throws has not written yet, so it
leaves the disk as it was. -/
def applyStoreCall (d : Disk) : StoreCall → Disk
  | .append record => ActivityManager.addActivity d record
  | .update record =>
    match ActivityManager.updateActivity d record with
    | .ok d' => d'
    | .error _ => d
  | .remove answer id =>
    match ActivityManager.deleteActivity d answer id with
    | .ok d' => d'
    | .error _ => d
  | .removeAll answer => ActivityManager.deleteAllActivities d answer
  | .addTag id tag =>
    match ActivityManager.addTagToActivity d id tag with
    | .ok d' => d'
    | .error _ => d

/-- The disk after a sequence of calls, oldest first. -/
def runStore (d : Disk) (calls : List StoreCall) : Disk :=
  calls.foldl applyStoreCall d

/-- The ids of the stored records, in stored order (`none` where a record has
no `id`). -/
def storedIds (d : Disk) : List JsValue :=
  (ActivityManager.getActivities d).map (fun a => a.get "id")

/-- The ids of the stored records are pairwise distinct. -/
def idsDistinct (d : Disk) : Prop := (storedIds d).Nodup

/-- Every `append` of the sequence carries a record whose id is not among the
ids stored when it is issued. -/
def appendsFresh : Disk → List StoreCall → Prop
  | _, [] => True
  | d, .append record :: rest =>
    record.get "id" ∉ storedIds d ∧ appendsFresh (applyStoreCall d (.append record)) rest
  | d, call :: rest => appendsFresh (applyStoreCall d call) rest

/-- A store whose log file does not exist yet. -/
def emptyDisk : Disk := { log := .unreadable, csv := none }

/-! ## Sample data for the worked scenarios -/

namespace Sample

/-- The record of the export scenario of the specification. -/
def buildRecord : Json :=
  .obj [("id", .str "1"), ("startTime", .str "2025-01-01T00:00:00Z"),
    ("endTime", .str "2025-01-01T01:00:00Z"), ("duration", .num 3600),
    ("description", .str "Build")]

/-- The fields of `buildRecord`. -/
def buildFields : CsvFields :=
  { id := "1", startTime := "2025-01-01T00:00:00Z", endTime := "2025-01-01T01:00:00Z",
    duration := .whole 3600, description := "Build", filesModified := none }

/-- A record as the stop command writes it: 754.321 s of work on two files. -/
def timedSession : Json :=
  .obj [("id", .str "1735725600000"), ("startTime", .str "2025-01-01T10:00:00.000Z"),
    ("endTime", .str "2025-01-01T10:12:34.321Z"),
    ("duration", .frac ⟨false, 754321, 3, by decide, by decide⟩),
    ("description", .str "Fix login"),
    ("filesModified", .arr [.str "src/a.js", .str "src/b.js"])]

/-- The fields of `timedSession`. -/
def sessionFields : CsvFields :=
  { id := "1735725600000", startTime := "2025-01-01T10:00:00.000Z",
    endTime := "2025-01-01T10:12:34.321Z",
    duration := .fraction ⟨false, 754321, 3, by decide, by decide⟩,
    description := "Fix login", filesModified := some ["src/a.js", "src/b.js"] }

/-- A disk whose log holds the given records and whose export is unwritten. -/
def diskOf (records : List Json) : Disk :=
  { log := .document (.obj [("activities", .arr records)]), csv := none }

/-- The record `buildRecord` after the tag `urgent` was added. -/
def taggedRecord : Json :=
  .obj [("id", .str "1"), ("startTime", .str "2025-01-01T00:00:00Z"),
    ("endTime", .str "2025-01-01T01:00:00Z"), ("duration", .num 3600),
    ("description", .str "Build"), ("tags", .arr [.str "urgent"])]

/-- A record with a start, an end and a description. -/
def timedRecord (startTime endTime description : String) : Json :=
  .obj [("id", .str "1"), ("startTime", .str startTime), ("endTime", .str endTime),
    ("description", .str description)]

end Sample

/-! ## Properties of the timer -/

theorem runCalls_sinceLatestStartFrom (calls : List TimedCall) (t : Timer) :
    (runCalls t calls).getDuration = sinceLatestStartFrom t.openSince t.duration calls := by
  induction calls generalizing t with
  | nil => simp [runCalls, sinceLatestStartFrom, Timer.getDuration]
  | cons c rest ih =>
    obtain ⟨k, now⟩ := c
    have step : runCalls t ((k, now) :: rest) = runCalls (applyCall t (k, now)) rest := rfl
    rw [step, ih]
    cases k with
    | start =>
      simp [applyCall, Timer.start, Timer.openSince, sinceLatestStartFrom]
    | pause =>
      rcases t with ⟨st, en, d, p⟩
      cases st <;> cases p <;>
        simp [applyCall, Timer.pause, Timer.openSince, sinceLatestStartFrom]

theorem sinceLatestStartFrom_eq_runningTimeFrom (calls : List TimedCall) (since : Option Int)
    (acc : ℚ) (h : startsOnlyWhenIdleFrom since.isSome calls = true) :
    sinceLatestStartFrom since acc calls = runningTimeFrom since acc calls := by
  induction calls generalizing since acc with
  | nil => cases since <;> simp [sinceLatestStartFrom, runningTimeFrom]
  | cons c rest ih =>
    obtain ⟨k, now⟩ := c
    cases k with
    | start =>
      cases since with
      | none =>
        simp only [startsOnlyWhenIdleFrom, Option.isSome, Bool.not_false, Bool.true_and] at h
        simpa [sinceLatestStartFrom, runningTimeFrom] using ih (some now) acc h
      | some s => simp [startsOnlyWhenIdleFrom] at h
    | pause =>
      cases since with
      | none =>
        simp only [startsOnlyWhenIdleFrom] at h
        simpa [sinceLatestStartFrom, runningTimeFrom] using ih none acc h
      | some s =>
        simp only [startsOnlyWhenIdleFrom] at h
        simpa [sinceLatestStartFrom, runningTimeFrom] using ih none _ h

/-- C1, as stated, fails: after `start()` at 0 ms, `start()` at 5000 ms and
`pause()` at 10000 ms the timer has been running for ten seconds, but
`getDuration()` returns five. -/
theorem timer_restart_loses_time :
    clockMonotone [(.start, 0), (.start, 5000), (.pause, 10000)] ∧
    runningTime [(.start, 0), (.start, 5000), (.pause, 10000)] = 10 ∧
    (runCalls Timer.fresh [(.start, 0), (.start, 5000), (.pause, 10000)]).getDuration = 5 ∧
    (runCalls Timer.fresh [(.start, 0), (.start, 5000), (.pause, 10000)]).getDuration ≠
      runningTime [(.start, 0), (.start, 5000), (.pause, 10000)] := by
  refine ⟨by simp [clockMonotone], ?_, ?_, ?_⟩ <;>
    norm_num [runningTime, runningTimeFrom, runCalls, applyCall, Timer.fresh, Timer.start,
      Timer.pause, Timer.getDuration, Timer.secondsBetween]

/-- C1, amended: for every sequence of `start()`/`pause()` calls on a fresh
timer, `getDuration()` is the sum over the effective `pause()` calls of the
time since the most recent `start()`; when no `start()` is issued while the
timer is running, that is the sum of the running intervals. -/
theorem timer_duration_sums_intervals (calls : List TimedCall) :
    (runCalls Timer.fresh calls).getDuration = sinceLatestStart calls ∧
    (startsOnlyWhenIdle calls = true →
      (runCalls Timer.fresh calls).getDuration = runningTime calls) := by
  have h₁ : (runCalls Timer.fresh calls).getDuration = sinceLatestStart calls := by
    rw [runCalls_sinceLatestStartFrom]; rfl
  refine ⟨h₁, fun h => ?_⟩
  rw [h₁]
  exact sinceLatestStartFrom_eq_runningTimeFrom calls none 0 h

/-- Witness for C1: a start, pause, resume, pause session. -/
theorem timer_duration_sums_intervals_witness :
    startsOnlyWhenIdle [(.start, 1000), (.pause, 4000), (.start, 9000), (.pause, 9500)] = true ∧
    (runCalls Timer.fresh
      [(.start, 1000), (.pause, 4000), (.start, 9000), (.pause, 9500)]).getDuration =
      runningTime [(.start, 1000), (.pause, 4000), (.start, 9000), (.pause, 9500)] :=
  ⟨by decide, (timer_duration_sums_intervals _).2 (by decide)⟩

/-! ## Properties of the store -/

section Store

open ActivityManager

theorem getActivities_saveActivities (d : Disk) (xs : List Json) :
    getActivities (saveActivities d xs) = xs := rfl

theorem read_of_isRecord {a : Json} (h : a.isRecord = true) (k : String) :
    a.read k = .ok (a.get k) := by
  cases a <;> simp_all [Json.isRecord, Json.read]

theorem idIs_of_isRecord {a : Json} (h : a.isRecord = true) (y : JsValue) :
    idIs (.ok y) a = .ok (strictEq (a.get "id") y) := by
  simp [idIs, read_of_isRecord h]

theorem idIsNot_of_isRecord {a : Json} (h : a.isRecord = true) (y : JsValue) :
    idIsNot y a = .ok (!strictEq (a.get "id") y) := by
  simp [idIsNot, read_of_isRecord h]

theorem findIndexE_none {p : Json → Except JsError Bool} {l : List Json}
    (h : ∀ b ∈ l, p b = .ok false) : findIndexE p l = .ok none := by
  induction l with
  | nil => rfl
  | cons b rest ih =>
    have hb := h b (List.mem_cons_self _ _)
    have hrest := ih (fun c hc => h c (List.mem_cons_of_mem _ hc))
    simp [findIndexE, hb, hrest]

theorem findIndexE_first {p : Json → Except JsError Bool} (pre : List Json) (a : Json)
    (post : List Json) (hpre : ∀ b ∈ pre, p b = .ok false) (ha : p a = .ok true) :
    findIndexE p (pre ++ a :: post) = .ok (some pre.length) := by
  induction pre with
  | nil => simp [findIndexE, ha]
  | cons b rest ih =>
    have hb := hpre b (List.mem_cons_self _ _)
    have hrest := ih (fun c hc => hpre c (List.mem_cons_of_mem _ hc))
    simp [findIndexE, hb, hrest]

theorem set_length_middle (pre : List Json) (a r : Json) (post : List Json) :
    (pre ++ a :: post).set pre.length r = pre ++ r :: post := by
  induction pre with
  | nil => rfl
  | cons b rest ih => simp [ih]

theorem filterE_of_ok {p : Json → Except JsError Bool} {q : Json → Bool} {l : List Json}
    (h : ∀ b ∈ l, p b = .ok (q b)) : filterE p l = .ok (l.filter q) := by
  induction l with
  | nil => rfl
  | cons b rest ih =>
    have hb := h b (List.mem_cons_self _ _)
    have hrest := ih (fun c hc => h c (List.mem_cons_of_mem _ hc))
    cases hq : q b <;> simp [filterE, hb, hrest, hq]

/-- C2: whatever the backing file holds, after `addActivity r` the list is the
previous list followed by `r`: one element longer, `r` last, the earlier
elements unchanged and in order. A missing, blank or malformed file, and a
document without an `activities` array, count as the empty list. -/
theorem addActivity_appends (d : Disk) (r : Json) :
    getActivities (addActivity d r) = getActivities d ++ [r] ∧
    (getActivities (addActivity d r)).length = (getActivities d).length + 1 ∧
    (getActivities (addActivity d r)).getLast? = some r ∧
    (getActivities (addActivity d r)).take (getActivities d).length = getActivities d ∧
    ((d.log = .unreadable ∨ d.log = .blank ∨ d.log = .malformed ∨
        (∃ v, d.log = .document v ∧ ∀ xs, v.get "activities" ≠ some (.arr xs))) →
      getActivities d = [] ∧ getActivities (addActivity d r) = [r]) := by
  have h : getActivities (addActivity d r) = getActivities d ++ [r] := rfl
  refine ⟨h, by simp [h], by simp [h], by simp [h], ?_⟩
  intro hlog
  have hempty : getActivities d = [] := by
    rcases hlog with h₁ | h₁ | h₁ | ⟨v, h₁, h₂⟩
    · simp [getActivities, h₁]
    · simp [getActivities, h₁]
    · simp [getActivities, h₁]
    · cases v with
      | null => simp [getActivities, h₁, Json.read]
      | bool b => simp [getActivities, h₁, Json.read, Json.get]
      | num n => simp [getActivities, h₁, Json.read, Json.get]
      | frac x => simp [getActivities, h₁, Json.read, Json.get]
      | str s => simp [getActivities, h₁, Json.read, Json.get]
      | arr xs => simp [getActivities, h₁, Json.read, Json.get]
      | obj kvs =>
        simp only [Json.get] at h₂
        simp only [getActivities, h₁, Json.read, Json.get]
  exact ⟨hempty, by rw [h, hempty]; rfl⟩

/-- Witness for C2: appending to a store whose file is malformed. -/
theorem addActivity_appends_witness :
    getActivities { log := .malformed, csv := none } = [] ∧
    getActivities (addActivity { log := .malformed, csv := none } (.obj [("id", .str "1")])) =
      [.obj [("id", .str "1")]] :=
  (addActivity_appends { log := .malformed, csv := none } (.obj [("id", .str "1")])).2.2.2.2
    (Or.inr (Or.inr (Or.inl rfl)))

/-- C3: on a store of records, `updateActivity r` with no stored record whose
id equals that of `r` writes nothing; otherwise the list keeps its length,
`r` replaces the first record with that id, and all other positions are
unchanged. -/
theorem updateActivity_replaces_first (d : Disk) (r : Json) (hr : r.isRecord = true)
    (hall : ∀ a ∈ getActivities d, a.isRecord = true) :
    ((∀ a ∈ getActivities d, strictEq (a.get "id") (r.get "id") = false) →
      updateActivity d r = .ok d) ∧
    (∀ pre a post, getActivities d = pre ++ a :: post →
      (∀ b ∈ pre, strictEq (b.get "id") (r.get "id") = false) →
      strictEq (a.get "id") (r.get "id") = true →
      ∃ d', updateActivity d r = .ok d' ∧ getActivities d' = pre ++ r :: post ∧
        (getActivities d').length = (getActivities d).length) := by
  have hp : ∀ a ∈ getActivities d,
      idIs (r.read "id") a = .ok (strictEq (a.get "id") (r.get "id")) := by
    intro a ha
    rw [read_of_isRecord hr]
    exact idIs_of_isRecord (hall a ha) _
  constructor
  · intro hno
    have hfind : findIndexE (idIs (r.read "id")) (getActivities d) = .ok none :=
      findIndexE_none (fun b hb => by rw [hp b hb, hno b hb])
    simp [updateActivity, hfind]
  · intro pre a post hsplit hpre ha
    have hfind : findIndexE (idIs (r.read "id")) (getActivities d) = .ok (some pre.length) := by
      rw [hsplit]
      apply findIndexE_first
      · intro b hb
        rw [hp b (by rw [hsplit]; exact List.mem_append_left _ hb), hpre b hb]
      · rw [hp a (by rw [hsplit]; simp), ha]
    refine ⟨saveActivities d ((getActivities d).set pre.length r), ?_, ?_, ?_⟩
    · simp [updateActivity, hfind]
    · rw [getActivities_saveActivities, hsplit, set_length_middle]
    · rw [getActivities_saveActivities]; simp

/-- Witness for C3: updating the second of three records. -/
theorem updateActivity_replaces_first_witness :
    ∃ d', updateActivity
        { log := .document (.obj [("activities", .arr [.obj [("id", .str "1")],
            .obj [("id", .str "2"), ("description", .str "old")], .obj [("id", .str "2")]])]),
          csv := none }
        (.obj [("id", .str "2"), ("description", .str "new")]) = .ok d' ∧
      getActivities d' = [.obj [("id", .str "1")]] ++
        .obj [("id", .str "2"), ("description", .str "new")] :: [.obj [("id", .str "2")]] ∧
      (getActivities d').length = (getActivities
        { log := .document (.obj [("activities", .arr [.obj [("id", .str "1")],
            .obj [("id", .str "2"), ("description", .str "old")], .obj [("id", .str "2")]])]),
          csv := none }).length :=
  (updateActivity_replaces_first
    { log := .document (.obj [("activities", .arr [.obj [("id", .str "1")],
        .obj [("id", .str "2"), ("description", .str "old")], .obj [("id", .str "2")]])]),
      csv := none }
    (.obj [("id", .str "2"), ("description", .str "new")]) rfl
    (by
      intro a ha
      have hl : a ∈ [Json.obj [("id", .str "1")],
          .obj [("id", .str "2"), ("description", .str "old")], .obj [("id", .str "2")]] := ha
      simp only [List.mem_cons, List.mem_singleton, List.mem_nil_iff, or_false] at hl
      rcases hl with h | h | h <;> subst h <;> rfl)).2
    [.obj [("id", .str "1")]] (.obj [("id", .str "2"), ("description", .str "old")])
    [.obj [("id", .str "2")]] rfl
    (by
      intro b hb
      simp only [List.mem_singleton] at hb
      subst hb
      decide)
    (by decide)

/-- C4: any answer other than `Yes`, a dismissed prompt included, makes
`deleteActivity` and `deleteAllActivities` leave the disk as it is; with `Yes`,
`deleteActivity id` on a store of records leaves exactly the records whose id
differs from `id`, in their order, and `deleteAllActivities` leaves the empty
list. -/
theorem delete_respects_confirmation (d : Disk) (id : JsValue) :
    (∀ answer : Option String, answer ≠ some "Yes" →
      deleteActivity d answer id = .ok d ∧ deleteAllActivities d answer = d) ∧
    ((∀ a ∈ getActivities d, a.isRecord = true) →
      ∃ d', deleteActivity d (some "Yes") id = .ok d' ∧
        getActivities d' = (getActivities d).filter (fun a => !strictEq (a.get "id") id)) ∧
    getActivities (deleteAllActivities d (some "Yes")) = [] := by
  refine ⟨?_, ?_, ?_⟩
  · intro answer hno
    simp [deleteActivity, deleteAllActivities, hno]
  · intro hall
    have hfilter : filterE (idIsNot id) (getActivities d) =
        .ok ((getActivities d).filter (fun a => !strictEq (a.get "id") id)) :=
      filterE_of_ok (fun b hb => idIsNot_of_isRecord (hall b hb) id)
    exact ⟨saveActivities d ((getActivities d).filter (fun a => !strictEq (a.get "id") id)),
      by simp [deleteActivity, hfilter], rfl⟩
  · rfl

/-- Witness for C4: a dismissed prompt, and a confirmed removal of id `2`. -/
theorem delete_respects_confirmation_witness :
    (deleteActivity
        { log := .document (.obj [("activities", .arr [.obj [("id", .str "1")],
            .obj [("id", .str "2")], .obj [("id", .str "3")]])]), csv := none }
        none (some (.str "2")) =
      .ok { log := .document (.obj [("activities", .arr [.obj [("id", .str "1")],
            .obj [("id", .str "2")], .obj [("id", .str "3")]])]), csv := none } ∧
     deleteAllActivities
        { log := .document (.obj [("activities", .arr [.obj [("id", .str "1")],
            .obj [("id", .str "2")], .obj [("id", .str "3")]])]), csv := none } none =
      { log := .document (.obj [("activities", .arr [.obj [("id", .str "1")],
            .obj [("id", .str "2")], .obj [("id", .str "3")]])]), csv := none }) ∧
    (∃ d', deleteActivity
        { log := .document (.obj [("activities", .arr [.obj [("id", .str "1")],
            .obj [("id", .str "2")], .obj [("id", .str "3")]])]), csv := none }
        (some "Yes") (some (.str "2")) = .ok d' ∧
      getActivities d' = [.obj [("id", .str "1")], .obj [("id", .str "3")]]) :=
  ⟨(delete_respects_confirmation _ _).1 none (by decide),
   (delete_respects_confirmation
      { log := .document (.obj [("activities", .arr [.obj [("id", .str "1")],
          .obj [("id", .str "2")], .obj [("id", .str "3")]])]), csv := none }
      (some (.str "2"))).2.1
    (by
      intro a ha
      have hl : a ∈ [Json.obj [("id", .str "1")], .obj [("id", .str "2")],
          .obj [("id", .str "3")]] := ha
      simp only [List.mem_cons, List.mem_singleton, List.mem_nil_iff, or_false] at hl
      rcases hl with h | h | h <;> subst h <;> rfl)⟩

theorem strictEq_str (x : Json) (t : String) :
    strictEq (some x) (some (.str t)) = x.isStr t := by
  cases x <;> simp [strictEq, Json.isStr]

theorem hasTag_of_isActivity {a : Json} (h : a.isActivity = true) (t : String) :
    hasTag (.str t) a = .ok (carriesTag t a) := by
  cases a with
  | obj kvs =>
    simp only [Json.isActivity] at h
    simp only [hasTag, carriesTag, Json.read, Json.get]
    split at h
    · rename_i hk; simp [hk]
    · rename_i ts hk; simp [hk, Json.truthy, strictEq_str]
    · simp at h
  | _ => simp [Json.isActivity] at h

theorem carriesTag_get {t : String} {a : Json} (h : carriesTag t a = true) :
    ∃ ts, a.get "tags" = some (.arr ts) ∧ ∃ x ∈ ts, x = Json.str t := by
  unfold carriesTag at h
  split at h
  · rename_i ts hk
    refine ⟨ts, hk, ?_⟩
    obtain ⟨x, hx, hxt⟩ := List.any_eq_true.mp h
    refine ⟨x, hx, ?_⟩
    cases x <;> simp_all [Json.isStr]
  · simp at h

theorem filterActivitiesByTag_exact_aux (d : Disk) (t : String)
    (hall : ∀ a ∈ getActivities d, a.isActivity = true) :
    filterActivitiesByTag d (.str t) = .ok ((getActivities d).filter (carriesTag t), d) := by
  have hfilter : filterE (hasTag (.str t)) (getActivities d) =
      .ok ((getActivities d).filter (carriesTag t)) :=
    filterE_of_ok (fun b hb => hasTag_of_isActivity (hall b hb) t)
  simp [filterActivitiesByTag, hfilter]

/-- C5: on a store of records, `filterActivitiesByTag t` returns exactly the
records whose `tags` sequence has an element equal to the string `t`, in
stored order; each returned record has a tags array holding `t` itself, a
record without tags is never returned, and the disk is left as it was. -/
theorem filterActivitiesByTag_exact (d : Disk) (t : String)
    (hall : ∀ a ∈ getActivities d, a.isActivity = true) :
    filterActivitiesByTag d (.str t) = .ok ((getActivities d).filter (carriesTag t), d) ∧
    ((getActivities d).filter (carriesTag t)).Sublist (getActivities d) ∧
    (∀ a ∈ (getActivities d).filter (carriesTag t),
      ∃ ts, a.get "tags" = some (.arr ts) ∧ ∃ x ∈ ts, x = Json.str t) ∧
    (∀ a ∈ getActivities d, a.get "tags" = none →
      a ∉ (getActivities d).filter (carriesTag t)) := by
  refine ⟨filterActivitiesByTag_exact_aux d t hall, List.filter_sublist _, ?_, ?_⟩
  · intro a ha
    exact carriesTag_get (List.mem_filter.mp ha).2
  · intro a _ hnone hmem
    have := (List.mem_filter.mp hmem).2
    simp [carriesTag, hnone] at this

/-- Witness for C5: the tag `urgent` does not select a record tagged
`urgent-later` or `Urgent`. -/
theorem filterActivitiesByTag_exact_witness :
    filterActivitiesByTag
        { log := .document (.obj [("activities", .arr [
            .obj [("id", .str "1"), ("tags", .arr [.str "urgent-later", .str "Urgent"])],
            .obj [("id", .str "2"), ("tags", .arr [.str "home", .str "urgent"])],
            .obj [("id", .str "3")]])]), csv := none }
        (.str "urgent") =
      .ok ([.obj [("id", .str "2"), ("tags", .arr [.str "home", .str "urgent"])]],
        { log := .document (.obj [("activities", .arr [
            .obj [("id", .str "1"), ("tags", .arr [.str "urgent-later", .str "Urgent"])],
            .obj [("id", .str "2"), ("tags", .arr [.str "home", .str "urgent"])],
            .obj [("id", .str "3")]])]), csv := none }) :=
  (filterActivitiesByTag_exact
    { log := .document (.obj [("activities", .arr [
        .obj [("id", .str "1"), ("tags", .arr [.str "urgent-later", .str "Urgent"])],
        .obj [("id", .str "2"), ("tags", .arr [.str "home", .str "urgent"])],
        .obj [("id", .str "3")]])]), csv := none }
    "urgent"
    (by
      intro a ha
      have hl : a ∈ [
          Json.obj [("id", .str "1"), ("tags", .arr [.str "urgent-later", .str "Urgent"])],
          .obj [("id", .str "2"), ("tags", .arr [.str "home", .str "urgent"])],
          .obj [("id", .str "3")]] := ha
      simp only [List.mem_cons, List.mem_singleton, List.mem_nil_iff, or_false] at hl
      rcases hl with h | h | h <;> subst h <;> rfl)).1

theorem lookup_assign_same (k : String) (v : Json) (kvs : List (String × Json)) :
    Json.lookup k (Json.assign k v kvs) = some v := by
  induction kvs with
  | nil => simp [Json.assign, Json.lookup]
  | cons p rest ih =>
    obtain ⟨k', w⟩ := p
    by_cases hk : k' = k <;> simp [Json.assign, Json.lookup, hk, ih]

theorem lookup_assign_other {k k' : String} (h : k' ≠ k) (v : Json)
    (kvs : List (String × Json)) :
    Json.lookup k' (Json.assign k v kvs) = Json.lookup k' kvs := by
  induction kvs with
  | nil => simp [Json.assign, Json.lookup, Ne.symm h]
  | cons p rest ih =>
    obtain ⟨k₀, w⟩ := p
    by_cases hk : k₀ = k
    · subst hk
      simp [Json.assign, Json.lookup, Ne.symm h]
    · by_cases hk' : k₀ = k'
      · subst hk'
        simp [Json.assign, Json.lookup, hk]
      · simp [Json.assign, Json.lookup, hk, hk', ih]

theorem pushTag_of_isActivity {a : Json} (h : a.isActivity = true) (tag : Json) :
    ∃ kvs, a = .obj kvs ∧
      pushTag a tag = .ok (.obj (Json.assign "tags" (.arr (tagsOf a ++ [tag])) kvs)) := by
  cases a with
  | obj kvs =>
    refine ⟨kvs, rfl, ?_⟩
    simp only [Json.isActivity] at h
    simp only [pushTag, tagsOf, Json.get]
    split at h
    · rename_i hk; simp [hk]
    · rename_i ts hk; simp [hk, Json.truthy]
    · simp at h
  | _ => simp [Json.isActivity] at h

theorem get?_length_middle (pre : List Json) (a : Json) (post : List Json) :
    (pre ++ a :: post).get? pre.length = some a := by
  induction pre with
  | nil => rfl
  | cons b rest ih => simpa using ih

/-- C6: on a store of records, `addTagToActivity id t` writes nothing when no
record has the id; otherwise the first record with the id gets `t` appended
to its tags (the empty sequence when it had none, duplicates kept), its other
fields and all other records stay as they were, and `filterActivitiesByTag t`
then returns that record. -/
theorem addTagToActivity_appends_tag (d : Disk) (id : JsValue) (t : String)
    (hall : ∀ a ∈ getActivities d, a.isActivity = true) :
    ((∀ a ∈ getActivities d, strictEq (a.get "id") id = false) →
      addTagToActivity d id (.str t) = .ok d) ∧
    (∀ pre a post, getActivities d = pre ++ a :: post →
      (∀ b ∈ pre, strictEq (b.get "id") id = false) →
      strictEq (a.get "id") id = true →
      ∃ d' a', addTagToActivity d id (.str t) = .ok d' ∧
        getActivities d' = pre ++ a' :: post ∧
        a'.get "tags" = some (.arr (tagsOf a ++ [.str t])) ∧
        (∀ k, k ≠ "tags" → a'.get k = a.get k) ∧
        ∃ found, filterActivitiesByTag d' (.str t) = .ok (found, d') ∧ a' ∈ found) := by
  have hrec : ∀ a : Json, a.isActivity = true → a.isRecord = true := by
    intro a ha
    cases a <;> simp_all [Json.isActivity, Json.isRecord]
  have hp : ∀ a ∈ getActivities d, idIs (.ok id) a = .ok (strictEq (a.get "id") id) :=
    fun a ha => idIs_of_isRecord (hrec a (hall a ha)) id
  constructor
  · intro hno
    have hfind : findIndexE (idIs (.ok id)) (getActivities d) = .ok none :=
      findIndexE_none (fun b hb => by rw [hp b hb, hno b hb])
    simp [addTagToActivity, hfind]
  · intro pre a post hsplit hpre ha
    have hmem : a ∈ getActivities d := by rw [hsplit]; simp
    have hfind : findIndexE (idIs (.ok id)) (getActivities d) = .ok (some pre.length) := by
      rw [hsplit]
      apply findIndexE_first
      · intro b hb
        rw [hp b (by rw [hsplit]; exact List.mem_append_left _ hb), hpre b hb]
      · rw [hp a hmem, ha]
    obtain ⟨kvs, hkvs, hpush⟩ := pushTag_of_isActivity (hall a hmem) (.str t)
    have htruthy : a.truthy = true := by rw [hkvs]; rfl
    have hget : (getActivities d).get? pre.length = some a := by
      rw [hsplit]; exact get?_length_middle pre a post
    have htags : (Json.obj (Json.assign "tags" (.arr (tagsOf a ++ [.str t])) kvs)).get "tags" =
        some (.arr (tagsOf a ++ [.str t])) := lookup_assign_same _ _ _
    have hlist : getActivities
        (saveActivities d ((getActivities d).set pre.length
          (.obj (Json.assign "tags" (.arr (tagsOf a ++ [.str t])) kvs)))) =
        pre ++ (.obj (Json.assign "tags" (.arr (tagsOf a ++ [.str t])) kvs)) :: post := by
      rw [getActivities_saveActivities, hsplit, set_length_middle]
    have hcarries :
        carriesTag t (.obj (Json.assign "tags" (.arr (tagsOf a ++ [.str t])) kvs)) = true := by
      simp [carriesTag, htags, Json.isStr]
    refine ⟨_, .obj (Json.assign "tags" (.arr (tagsOf a ++ [.str t])) kvs), ?_, hlist, htags,
      ?_, ?_⟩
    · simp only [addTagToActivity, hfind, hget, htruthy, hpush, if_true]
    · intro k hk
      rw [hkvs]
      exact lookup_assign_other hk _ _
    · have hall' : ∀ b ∈ getActivities
          (saveActivities d ((getActivities d).set pre.length
            (.obj (Json.assign "tags" (.arr (tagsOf a ++ [.str t])) kvs)))),
          b.isActivity = true := by
        intro b hb
        rw [hlist] at hb
        rcases List.mem_append.mp hb with hb | hb
        · exact hall b (by rw [hsplit]; exact List.mem_append_left _ hb)
        · rcases List.mem_cons.mp hb with hb | hb
          · subst hb
            have := htags
            simp only [Json.get] at this
            simp [Json.isActivity, this]
          · exact hall b (by rw [hsplit]; simp [hb])
      refine ⟨_, (filterActivitiesByTag_exact_aux _ t hall'), ?_⟩
      rw [hlist]
      exact List.mem_filter.mpr ⟨by simp, hcarries⟩

/-- Witness for C6: the scenario of the specification, `addTag("1", "urgent")`
on a store holding record `1`, then `filterByTag("urgent")` and
`filterByTag("missing")`. -/
theorem addTagToActivity_appends_tag_witness :
    (∃ d' a', addTagToActivity (Sample.diskOf [Sample.buildRecord]) (some (.str "1"))
          (.str "urgent") = .ok d' ∧
        getActivities d' = [] ++ a' :: [] ∧
        a'.get "tags" = some (.arr (tagsOf Sample.buildRecord ++ [.str "urgent"])) ∧
        (∀ k, k ≠ "tags" → a'.get k = Sample.buildRecord.get k) ∧
        ∃ found, filterActivitiesByTag d' (.str "urgent") = .ok (found, d') ∧ a' ∈ found) ∧
    addTagToActivity (Sample.diskOf [Sample.buildRecord]) (some (.str "1")) (.str "urgent") =
      .ok (Sample.diskOf [Sample.taggedRecord]) ∧
    filterActivitiesByTag (Sample.diskOf [Sample.taggedRecord]) (.str "urgent") =
      .ok ([Sample.taggedRecord], Sample.diskOf [Sample.taggedRecord]) ∧
    filterActivitiesByTag (Sample.diskOf [Sample.taggedRecord]) (.str "missing") =
      .ok ([], Sample.diskOf [Sample.taggedRecord]) :=
  ⟨(addTagToActivity_appends_tag (Sample.diskOf [Sample.buildRecord]) (some (.str "1")) "urgent"
      (by
        intro a ha
        have hl : a ∈ [Sample.buildRecord] := ha
        simp only [List.mem_singleton] at hl
        subst hl
        rfl)).2 [] Sample.buildRecord [] rfl (by simp) (by decide),
    by rfl, by rfl, by rfl⟩

theorem elemStrs_strs (files : List String) :
    Json.elemStrs (files.map Json.str) = .ok files := by
  induction files with
  | nil => rfl
  | cons f rest ih => simp [Json.elemStrs, Json.toStr, ih]

theorem toStr_ofNumber (x : JsNumber) : (Json.ofNumber x).toStr = .ok x.text := by
  cases x <;> simp [Json.ofNumber, Json.toStr]

theorem csvRow_of_holdsFields {a : Json} {f : CsvFields} (h : holdsFields a f) :
    csvRow a = .ok (specCsvRow f) := by
  obtain ⟨hrec, hid, hstart, hend, hdur, hdesc, hfiles⟩ := h
  have hft : filesText (a.get "filesModified") =
      .ok (String.intercalate ";" (f.filesModified.getD [])) := by
    rw [hfiles]
    cases f.filesModified with
    | none => rfl
    | some files =>
      simp [filesText, Json.truthy, Json.join, elemStrs_strs, Functor.map, Except.map]
  simp [csvRow, read_of_isRecord hrec, hid, hstart, hend, hdur, hdesc, hft, templateText,
    Json.toStr, toStr_ofNumber, specCsvRow, bind, Except.bind, pure, Except.pure]

theorem mapE_csvRow {acts : List Json} {fs : List CsvFields}
    (h : List.Forall₂ holdsFields acts fs) :
    mapE csvRow acts = .ok (fs.map specCsvRow) := by
  induction h with
  | nil => rfl
  | cons hhead _ ih => simp [mapE, csvRow_of_holdsFields hhead, ih]

/-- C7: `exportActivitiesToCSV` writes nothing when the list is empty;
otherwise, for records holding the fields of the data model (the duration
being any finite number, whole or fractional), it writes the header followed
by one row per record in stored order, newline-joined, each row being
`id,"startTime","endTime",duration,"description","files"` with the duration
as JavaScript prints the number and the files joined by `;`, empty when
absent or empty. The log is untouched. -/
theorem exportActivitiesToCSV_rows (d : Disk) (fs : List CsvFields)
    (h : List.Forall₂ holdsFields (getActivities d) fs) :
    (fs = [] → exportActivitiesToCSV d = .ok d) ∧
    (fs ≠ [] → exportActivitiesToCSV d = .ok { log := d.log, csv := some (specCsv fs) }) ∧
    (∀ f ∈ fs, f.filesModified = none ∨ f.filesModified = some [] →
      specCsvRow f = f.id ++ ",\"" ++ f.startTime ++ "\",\"" ++ f.endTime ++ "\"," ++
        f.duration.text ++ ",\"" ++ f.description ++ "\",\"\"") := by
  have hlen : (getActivities d).length = fs.length := h.length_eq
  refine ⟨?_, ?_, ?_⟩
  · intro hfs
    subst hfs
    simp [exportActivitiesToCSV, hlen]
  · intro hfs
    have hpos : ¬ (getActivities d).length = 0 := by
      rw [hlen]
      exact fun h0 => hfs (List.length_eq_zero.mp h0)
    simp [exportActivitiesToCSV, hpos, mapE_csvRow h, specCsv]
  · intro f _ hf
    have hlit : ("\",\"" : String) ++ "\"" = "\",\"\"" := by decide
    rcases hf with hf | hf <;>
      simp [specCsvRow, hf, String.intercalate] <;>
      rw [String.append_assoc, hlit]

set_option maxRecDepth 100000

/-- Witness for C7: the export scenario of the specification, and a store
that also holds a record as the stop command writes it, with 754.321 s of
work on two files. -/
theorem exportActivitiesToCSV_rows_witness :
    (exportActivitiesToCSV (Sample.diskOf [Sample.buildRecord]) =
      .ok { log := (Sample.diskOf [Sample.buildRecord]).log,
            csv := some (specCsv [Sample.buildFields]) } ∧
     specCsv [Sample.buildFields] =
      "ID,Start Time,End Time,Duration (seconds),Description,Files Modified\n" ++
      "1,\"2025-01-01T00:00:00Z\",\"2025-01-01T01:00:00Z\",3600,\"Build\",\"\"") ∧
    (exportActivitiesToCSV (Sample.diskOf [Sample.buildRecord, Sample.timedSession]) =
      .ok { log := (Sample.diskOf [Sample.buildRecord, Sample.timedSession]).log,
            csv := some (specCsv [Sample.buildFields, Sample.sessionFields]) } ∧
     specCsv [Sample.buildFields, Sample.sessionFields] =
      "ID,Start Time,End Time,Duration (seconds),Description,Files Modified\n" ++
      "1,\"2025-01-01T00:00:00Z\",\"2025-01-01T01:00:00Z\",3600,\"Build\",\"\"\n" ++
      "1735725600000,\"2025-01-01T10:00:00.000Z\",\"2025-01-01T10:12:34.321Z\",754.321," ++
      "\"Fix login\",\"src/a.js;src/b.js\"") :=
  ⟨⟨(exportActivitiesToCSV_rows (Sample.diskOf [Sample.buildRecord]) [Sample.buildFields]
      (List.Forall₂.cons ⟨rfl, rfl, rfl, rfl, rfl, rfl, rfl⟩ List.Forall₂.nil)).2.1 (by simp),
    by decide⟩,
   ⟨(exportActivitiesToCSV_rows (Sample.diskOf [Sample.buildRecord, Sample.timedSession])
      [Sample.buildFields, Sample.sessionFields]
      (List.Forall₂.cons ⟨rfl, rfl, rfl, rfl, rfl, rfl, rfl⟩
        (List.Forall₂.cons ⟨rfl, rfl, rfl, rfl, rfl, rfl, rfl⟩ List.Forall₂.nil))).2.1 (by simp),
    by decide⟩⟩

/-- The text of a number in the three layouts of `Number::toString`: plain
digits, a decimal point, and exponent notation from `10 ^ 21` and below
`10 ^ (-6)`. -/
theorem number_text_samples :
    (JsNumber.whole 3600).text = "3600" ∧
    (JsNumber.whole 0).text = "0" ∧
    (JsNumber.whole (-12)).text = "-12" ∧
    (JsNumber.fraction ⟨false, 754321, 3, by decide, by decide⟩).text = "754.321" ∧
    (JsNumber.fraction ⟨false, 5, 1, by decide, by decide⟩).text = "0.5" ∧
    (JsNumber.fraction ⟨false, 1, 6, by decide, by decide⟩).text = "0.000001" ∧
    (JsNumber.fraction ⟨false, 15, 8, by decide, by decide⟩).text = "1.5e-7" ∧
    (JsNumber.whole 100000000000000000000).text = "100000000000000000000" ∧
    (JsNumber.whole 1000000000000000000000).text = "1e+21" ∧
    (JsNumber.whole 12300000000000000000000).text = "1.23e+22" := by
  refine ⟨?_, ?_, ?_, ?_, ?_, ?_, ?_, ?_, ?_, ?_⟩ <;> decide

end Store

/-! ## Properties of the renderer -/

section Renderer

open Diagram

set_option maxRecDepth 100000

/-- C8 fails on the code. On a machine one hour ahead of UTC, a record from
10:00:00Z to 10:30:00Z is printed with the end 09:30:00 before the start
10:00:00, and a record whose start and end are both 10:00:00Z is printed with
the end 09:00:01: the end text has been re-read as local time and printed
back in UTC, the start text has not. On a UTC machine the same records give
10:30:00 and 10:00:01. -/
theorem task_row_end_shifted_by_zone :
    generateMermaidDiagram (sampleHost 60 0)
        (some (.arr [Sample.timedRecord "2025-01-01T10:00:00Z" "2025-01-01T10:30:00Z" "Work"])) =
      .ok (String.mk (preamble ++
        "    Work :task0, 2025-01-01 10:00:00, 2025-01-01 09:30:00".data ++ closing)) ∧
    generateMermaidDiagram (sampleHost 60 0)
        (some (.arr [Sample.timedRecord "2025-01-01T10:00:00Z" "2025-01-01T10:00:00Z" "Work"])) =
      .ok (String.mk (preamble ++
        "    Work :task0, 2025-01-01 10:00:00, 2025-01-01 09:00:01".data ++ closing)) ∧
    generateMermaidDiagram (sampleHost 0 0)
        (some (.arr [Sample.timedRecord "2025-01-01T10:00:00Z" "2025-01-01T10:30:00Z" "Work"])) =
      .ok (String.mk (preamble ++
        "    Work :task0, 2025-01-01 10:00:00, 2025-01-01 10:30:00".data ++ closing)) ∧
    generateMermaidDiagram (sampleHost 0 0)
        (some (.arr [Sample.timedRecord "2025-01-01T10:00:00Z" "2025-01-01T10:00:00Z" "Work"])) =
      .ok (String.mk (preamble ++
        "    Work :task0, 2025-01-01 10:00:00, 2025-01-01 10:00:01".data ++ closing)) := by
  refine ⟨?_, ?_, ?_, ?_⟩ <;> decide

/-- On a machine one hour ahead of UTC a record from 10:00:00Z to 11:00:00Z is
printed with the same text for start and end: the shifted end equals the
start, and the tie-break, which compares the two re-parsed dates, does not
see it. -/
theorem task_row_zero_width_by_zone :
    generateMermaidDiagram (sampleHost 60 0)
        (some (.arr [Sample.timedRecord "2025-01-01T10:00:00Z" "2025-01-01T11:00:00Z" "Work"])) =
      .ok (String.mk (preamble ++
        "    Work :task0, 2025-01-01 10:00:00, 2025-01-01 10:00:00".data ++ closing)) := by
  decide

/-- C9 fails on the code: the description `say "hi"` is sanitized to
`say_/"hi/"`. The backslash put before each double quote is turned into a
slash by the later replacement of backslashes, so the quotes stay raw. A hash
keeps its backslash, a colon becomes an underscore and white space collapses. -/
theorem escape_leaves_raw_quote :
    escapeMermaidText 0 (.str "say \"hi\"") = "say_/\"hi/\"".data ∧
    occursIn ['\\', '"'] (escapeMermaidText 0 (.str "say \"hi\"")) = false ∧
    escapeMermaidText 0 (.str "a: b  \t#c") = "a__b_\\#c".data ∧
    generateMermaidDiagram (sampleHost 0 0)
        (some (.arr [Sample.timedRecord "2025-01-01T10:00:00Z" "2025-01-01T10:30:00Z"
          "say \"hi\""])) =
      .ok (String.mk (preamble ++
        "    say_/\"hi/\" :task0, 2025-01-01 10:00:00, 2025-01-01 10:30:00".data ++ closing)) := by
  refine ⟨?_, ?_, ?_, ?_⟩ <;> decide

theorem hasColonN_append_right {l : List Char} (t : List Char) (h : hasColonN l = true) :
    hasColonN (l ++ t) = true := by
  induction l with
  | nil => simp [hasColonN] at h
  | cons c rest ih =>
    simp only [hasColonN, Bool.or_eq_true, Bool.and_eq_true] at h
    simp only [List.cons_append, hasColonN, Bool.or_eq_true, Bool.and_eq_true]
    rcases h with ⟨hc, hn⟩ | h
    · left
      refine ⟨hc, ?_⟩
      cases rest with
      | nil => simp at hn
      | cons x xs => simpa using hn
    · exact Or.inr (ih h)

theorem hasColonN_append_left (s : List Char) {l : List Char} (h : hasColonN l = true) :
    hasColonN (s ++ l) = true := by
  induction s with
  | nil => exact h
  | cons c rest ih => simp [hasColonN, ih]

theorem hasColonN_of_infix {l₁ l₂ : List Char} (hsub : l₁ <:+: l₂) (h : hasColonN l₁ = true) :
    hasColonN l₂ = true := by
  obtain ⟨s, t, rfl⟩ := hsub
  exact hasColonN_append_right t (hasColonN_append_left s h)

theorem hasColonN_of_no_n {l : List Char} (h : ∀ c ∈ l, c ≠ 'n') : hasColonN l = false := by
  induction l with
  | nil => rfl
  | cons c rest ih =>
    have hrest := ih (fun x hx => h x (List.mem_cons_of_mem _ hx))
    have hhead : (rest.head? == some 'n') = false := by
      cases rest with
      | nil => rfl
      | cons x xs =>
        have := h x (by simp)
        simpa using this
    simp [hasColonN, hrest, hhead]

theorem hasColonN_append_of_no_colon {a b : List Char} (ha : ∀ c ∈ a, c ≠ ':')
    (hb : hasColonN b = false) : hasColonN (a ++ b) = false := by
  induction a with
  | nil => exact hb
  | cons c rest ih =>
    have hc : c ≠ ':' := ha c (List.mem_cons_self _ _)
    have hrest := ih (fun x hx => ha x (List.mem_cons_of_mem _ hx))
    simp [hasColonN, hc, hrest]

theorem hasColonN_append_newline {a b : List Char} (ha : hasColonN a = false)
    (hb : hasColonN b = false) : hasColonN (a ++ '\n' :: b) = false := by
  induction a with
  | nil => simpa [hasColonN] using hb
  | cons c rest ih =>
    simp only [hasColonN, Bool.or_eq_false_iff] at ha
    have hrest := ih ha.2
    have hhead : (c == ':' && (rest ++ '\n' :: b).head? == some 'n') = false := by
      cases rest with
      | nil => simp
      | cons x xs => exact ha.1
    show ((c == ':' && (rest ++ '\n' :: b).head? == some 'n') ||
      hasColonN (rest ++ '\n' :: b)) = false
    rw [hhead, hrest]
    rfl

theorem digitChar_isDigit {k : Nat} (hk : k < 10) : (Nat.digitChar k).isDigit = true := by
  interval_cases k <;> rfl

theorem ne_n_of_isDigit {c : Char} (h : c.isDigit = true) : c ≠ 'n' := by
  intro hc
  subst hc
  simp [Char.isDigit] at h

theorem ne_colon_of_isDigit {c : Char} (h : c.isDigit = true) : c ≠ ':' := by
  intro hc
  subst hc
  simp [Char.isDigit] at h

theorem pad_isDigit (width n : Nat) : ∀ c ∈ JsDate.pad width n, c.isDigit = true := by
  intro c hc
  simp only [JsDate.pad, List.mem_map] at hc
  obtain ⟨i, _, rfl⟩ := hc
  exact digitChar_isDigit (Nat.mod_lt _ (by norm_num))

theorem toDigitsCore_isDigit (fuel n : Nat) (ds : List Char)
    (hds : ∀ c ∈ ds, c.isDigit = true) :
    ∀ c ∈ Nat.toDigitsCore 10 fuel n ds, c.isDigit = true := by
  induction fuel generalizing n ds with
  | zero => simpa [Nat.toDigitsCore] using hds
  | succ fuel ih =>
    have hcons : ∀ c ∈ Nat.digitChar (n % 10) :: ds, c.isDigit = true := by
      intro c hc
      rcases List.mem_cons.mp hc with rfl | hc
      · exact digitChar_isDigit (Nat.mod_lt _ (by norm_num))
      · exact hds c hc
    simp only [Nat.toDigitsCore]
    split
    · exact hcons
    · exact ih _ _ hcons

theorem toDigits_isDigit (n : Nat) : ∀ c ∈ Nat.toDigits 10 n, c.isDigit = true :=
  toDigitsCore_isDigit _ _ _ (by simp)

theorem intText_no_colon (n : Int) : ∀ c ∈ JsDate.intText n, c ≠ ':' := by
  intro c hc
  unfold JsDate.intText at hc
  split at hc
  · rcases List.mem_cons.mp hc with rfl | hc
    · decide
    · exact ne_colon_of_isDigit (toDigits_isDigit _ c hc)
  · exact ne_colon_of_isDigit (toDigits_isDigit _ c hc)

theorem yearText_no_n (y : Int) : ∀ c ∈ JsDate.yearText y, c ≠ 'n' := by
  intro c hc
  unfold JsDate.yearText at hc
  split at hc
  · exact ne_n_of_isDigit (pad_isDigit _ _ c hc)
  · split at hc
    · rcases List.mem_cons.mp hc with rfl | hc
      · decide
      · exact ne_n_of_isDigit (pad_isDigit _ _ c hc)
    · rcases List.mem_cons.mp hc with rfl | hc
      · decide
      · exact ne_n_of_isDigit (pad_isDigit _ _ c hc)

theorem toISOString_no_n (t : Int) : ∀ c ∈ JsDate.toISOString t, c ≠ 'n' := by
  intro c hc
  simp only [JsDate.toISOString, List.mem_append, List.mem_cons, List.mem_singleton,
    List.mem_nil_iff, or_false] at hc
  have hp : ∀ w n, c ∈ JsDate.pad w n → c ≠ 'n' :=
    fun w n h => ne_n_of_isDigit (pad_isDigit w n c h)
  casesm* _ ∨ _
  all_goals first
    | exact yearText_no_n _ c ‹_›
    | exact hp _ _ ‹_›
    | (subst c; decide)

theorem mem_replace_first {l : List Char} {a b c : Char} (h : c ∈ l.replace a b) :
    c ∈ l ∨ c = b := by
  induction l with
  | nil => simp at h
  | cons x rest ih =>
    rw [List.replace_cons] at h
    split at h
    · rcases List.mem_cons.mp h with rfl | h
      · exact Or.inr rfl
      · exact Or.inl (List.mem_cons_of_mem _ h)
    · rcases List.mem_cons.mp h with rfl | h
      · exact Or.inl (List.mem_cons_self _ _)
      · rcases ih h with h | h
        · exact Or.inl (List.mem_cons_of_mem _ h)
        · exact Or.inr h

theorem stampText_no_n (t : Int) : ∀ c ∈ stampText t, c ≠ 'n' := by
  intro c hc
  rcases mem_replace_first (List.mem_of_mem_take hc) with h | rfl
  · exact toISOString_no_n t c h
  · decide

theorem mem_replaceChar {c x : Char} {new s : List Char} (h : x ∈ replaceChar c new s) :
    x ∈ new ∨ (x ∈ s ∧ x ≠ c) := by
  induction s with
  | nil => simp [replaceChar] at h
  | cons y rest ih =>
    simp only [replaceChar] at h
    split at h
    · rcases List.mem_append.mp h with h | h
      · exact Or.inl h
      · rcases ih h with h | h
        · exact Or.inl h
        · exact Or.inr ⟨List.mem_cons_of_mem _ h.1, h.2⟩
    · rename_i hy
      rcases List.mem_cons.mp h with rfl | h
      · exact Or.inr ⟨List.mem_cons_self _ _, hy⟩
      · rcases ih h with h | h
        · exact Or.inl h
        · exact Or.inr ⟨List.mem_cons_of_mem _ h.1, h.2⟩

theorem mem_collapseSpaces {x : Char} {inRun : Bool} {s : List Char}
    (h : x ∈ collapseSpaces inRun s) : x = '_' ∨ x ∈ s := by
  induction s generalizing inRun with
  | nil => simp [collapseSpaces] at h
  | cons y rest ih =>
    simp only [collapseSpaces] at h
    split at h
    · split at h
      · rcases ih h with h | h
        · exact Or.inl h
        · exact Or.inr (List.mem_cons_of_mem _ h)
      · rcases List.mem_cons.mp h with rfl | h
        · exact Or.inl rfl
        · rcases ih h with h | h
          · exact Or.inl h
          · exact Or.inr (List.mem_cons_of_mem _ h)
    · rcases List.mem_cons.mp h with rfl | h
      · exact Or.inr (List.mem_cons_self _ _)
      · rcases ih h with h | h
        · exact Or.inl h
        · exact Or.inr (List.mem_cons_of_mem _ h)

theorem mem_trim {x : Char} {s : List Char} (h : x ∈ trim s) : x ∈ s := by
  unfold trim at h
  rw [List.mem_reverse] at h
  have h₁ := (List.dropWhile_sublist _).subset h
  rw [List.mem_reverse] at h₁
  exact (List.dropWhile_sublist _).subset h₁

theorem escapeChain_no_colon (text : List Char) : ∀ c ∈ escapeChain text, c ≠ ':' := by
  intro c hc hcolon
  subst hcolon
  unfold escapeChain at hc
  rcases mem_collapseSpaces (mem_trim hc) with h | h
  · exact absurd h (by decide)
  rcases mem_replaceChar h with h | ⟨h, -⟩
  · exact absurd h (by decide)
  rcases mem_replaceChar h with h | ⟨h, -⟩
  · exact absurd h (by decide)
  rcases mem_replaceChar h with h | ⟨h, -⟩
  · exact absurd h (by decide)
  rcases mem_replaceChar h with h | ⟨h, -⟩
  · exact absurd h (by decide)
  rcases mem_replaceChar h with h | ⟨h, -⟩
  · exact absurd h (by decide)
  rcases mem_replaceChar h with h | ⟨-, h⟩
  · exact absurd h (by decide)
  · exact h rfl

theorem escapeMermaidText_no_colon (now : Int) (text : Json) :
    ∀ c ∈ escapeMermaidText now text, c ≠ ':' := by
  have hfall : ∀ c ∈ "Activity_".data ++ JsDate.intText now, c ≠ ':' := by
    intro c hc
    rcases List.mem_append.mp hc with h | h
    · intro hcolon
      subst hcolon
      exact absurd h (by decide)
    · exact intText_no_colon now c h
  intro c hc
  unfold escapeMermaidText at hc
  split at hc
  · split at hc
    · exact hfall c hc
    · exact escapeChain_no_colon _ c hc
  · exact hfall c hc

theorem formatDate_stamp {h : Host} {now : Int} {v : Json} {s : List Char}
    (hs : formatDate h now v = .ok s) : ∃ t, s = stampText t := by
  unfold formatDate at hs
  split at hs
  · exact ⟨now, (Except.ok.inj hs).symm⟩
  · split at hs
    · cases hs
    · exact ⟨now, (Except.ok.inj hs).symm⟩
    · rename_i t _
      exact ⟨t, (Except.ok.inj hs).symm⟩

theorem fieldStamp_stamp {h : Host} {now : Int} {x : JsValue} {s : List Char}
    (hs : fieldStamp h now x = .ok s) : ∃ t, s = stampText t := by
  unfold fieldStamp at hs
  split at hs
  · split at hs
    · exact formatDate_stamp hs
    · exact ⟨now, (Except.ok.inj hs).symm⟩
  · exact ⟨now, (Except.ok.inj hs).symm⟩

theorem taskBlock_clean {description id startTime endText : List Char} (withFiles : Bool)
    (hd : ∀ c ∈ description, c ≠ ':') (hid : ∀ c ∈ id, c ≠ 'n')
    (hst : ∀ c ∈ startTime, c ≠ 'n') (hen : ∀ c ∈ endText, c ≠ 'n') :
    taskBlock description id startTime endText withFiles ≠ [] ∧
    hasColonN (taskBlock description id startTime endText withFiles) = false := by
  have htail : ∀ c ∈ id ++ ", ".data ++ startTime ++ ", ".data ++ endText, c ≠ 'n' := by
    intro c hc
    simp only [List.mem_append] at hc
    rcases hc with (((h | h) | h) | h) | h
    · exact hid c h
    · intro hn; subst hn; exact absurd h (by decide)
    · exact hst c h
    · intro hn; subst hn; exact absurd h (by decide)
    · exact hen c h
  have htask : hasColonN ("    ".data ++ description ++ " :".data ++ id ++ ", ".data ++
      startTime ++ ", ".data ++ endText) = false := by
    have hre : "    ".data ++ description ++ " :".data ++ id ++ ", ".data ++ startTime ++
        ", ".data ++ endText =
        ("    ".data ++ description) ++
          (" :".data ++ (id ++ ", ".data ++ startTime ++ ", ".data ++ endText)) := by
      simp only [List.append_assoc]
    rw [hre]
    apply hasColonN_append_of_no_colon
    · intro c hc
      rcases List.mem_append.mp hc with h | h
      · intro hn; subst hn; exact absurd h (by decide)
      · exact hd c h
    · apply hasColonN_of_no_n
      intro c hc
      rcases List.mem_append.mp hc with h | h
      · intro hn; subst hn; exact absurd h (by decide)
      · exact htail c h
  have hfiles : hasColonN ("    Files :f".data ++ id ++ ", ".data ++ startTime ++ ", ".data ++
      endText) = false := by
    apply hasColonN_of_no_n
    intro c hc
    have hre : "    Files :f".data ++ id ++ ", ".data ++ startTime ++ ", ".data ++ endText =
        "    Files :f".data ++ (id ++ ", ".data ++ startTime ++ ", ".data ++ endText) := by
      simp only [List.append_assoc]
    rw [hre] at hc
    rcases List.mem_append.mp hc with h | h
    · intro hn; subst hn; exact absurd h (by decide)
    · exact htail c h
  unfold taskBlock
  cases withFiles with
  | false => exact ⟨by simp, by simpa using htask⟩
  | true => exact ⟨by simp, by simpa using hasColonN_append_newline htask hfiles⟩

theorem renderActivity_clean {h : Host} {index : Nat} {activity : Json} {block : List Char}
    (hr : renderActivity h index activity = .ok block) :
    block ≠ [] ∧ hasColonN block = false := by
  unfold renderActivity at hr
  split at hr
  · cases hr
  · rename_i startTime hstart
    split at hr
    · cases hr
    · rename_i endTime hend
      simp only at hr
      split at hr
      · cases hr
      · rename_i e _
        obtain ⟨t, rfl⟩ := fieldStamp_stamp hstart
        have hb := Except.ok.inj hr
        rw [← hb]
        apply taskBlock_clean
        · exact escapeMermaidText_no_colon _ _
        · intro c hc
          rcases List.mem_append.mp hc with h | h
          · intro hn; subst hn; exact absurd h (by decide)
          · exact ne_n_of_isDigit (toDigits_isDigit _ c h)
        · exact stampText_no_n t
        · exact stampText_no_n e

theorem renderElements_clean {h : Host} {index : Nat} {xs : List Json}
    {blocks : List (List Char)} (hr : renderElements h index xs = .ok blocks) :
    (∀ b ∈ blocks, hasColonN b = false) ∧
    ((∃ a ∈ xs, isValidActivity a = true) → ∃ b ∈ blocks, b ≠ []) := by
  induction xs generalizing index blocks with
  | nil =>
    cases Except.ok.inj hr
    exact ⟨by simp, by simp⟩
  | cons a rest ih =>
    simp only [renderElements] at hr
    split at hr
    · cases hr
    · rename_i block hblock
      split at hr
      · cases hr
      · rename_i others hothers
        cases Except.ok.inj hr
        obtain ⟨hclean, hsome⟩ := ih hothers
        have hthis : hasColonN block = false ∧ (isValidActivity a = true → block ≠ []) := by
          unfold renderElement at hblock
          split at hblock
          · exact ⟨(renderActivity_clean hblock).2, fun _ => (renderActivity_clean hblock).1⟩
          · rename_i hinv
            cases Except.ok.inj hblock
            exact ⟨rfl, fun hv => absurd hv hinv⟩
        constructor
        · intro b hb
          rcases List.mem_cons.mp hb with rfl | hb
          · exact hthis.1
          · exact hclean b hb
        · rintro ⟨x, hx, hvalid⟩
          rcases List.mem_cons.mp hx with rfl | hx
          · exact ⟨block, List.mem_cons_self _ _, hthis.2 hvalid⟩
          · obtain ⟨b, hb, hne⟩ := hsome ⟨x, hx, hvalid⟩
            exact ⟨b, List.mem_cons_of_mem _ hb, hne⟩

theorem renderElements_invalid (h : Host) (index : Nat) (xs : List Json)
    (hinv : ∀ a ∈ xs, isValidActivity a = false) :
    ∃ blocks, renderElements h index xs = .ok blocks ∧ ∀ b ∈ blocks, b = [] := by
  induction xs generalizing index with
  | nil => exact ⟨[], rfl, by simp⟩
  | cons a rest ih =>
    obtain ⟨blocks, hblocks, hempty⟩ := ih (index + 1)
      (fun x hx => hinv x (List.mem_cons_of_mem _ hx))
    have ha := hinv a (List.mem_cons_self _ _)
    refine ⟨[] :: blocks, ?_, ?_⟩
    · simp [renderElements, renderElement, ha, hblocks]
    · intro b hb
      rcases List.mem_cons.mp hb with rfl | hb
      · rfl
      · exact hempty b hb

theorem joinLines_clean {bs : List (List Char)} (h : ∀ b ∈ bs, hasColonN b = false) :
    hasColonN (joinLines bs) = false := by
  induction bs with
  | nil => rfl
  | cons x rest ih =>
    cases rest with
    | nil => simpa [joinLines] using h x (by simp)
    | cons y more =>
      simp only [joinLines]
      exact hasColonN_append_newline (h x (by simp))
        (ih (fun b hb => h b (List.mem_cons_of_mem _ hb)))

theorem joinLines_ne_nil {bs : List (List Char)} (hne : bs ≠ [])
    (h : ∀ b ∈ bs, b ≠ []) : joinLines bs ≠ [] := by
  cases bs with
  | nil => exact absurd rfl hne
  | cons x rest =>
    cases rest with
    | nil => simpa [joinLines] using h x (by simp)
    | cons y more =>
      have hx := h x (by simp)
      simp [joinLines, hx]

/-- C10: for an input that is not an array, is empty, or holds only invalid
elements, the renderer returns the preamble, the single placeholder row
(whose two stamps are one second apart) and the closing; when the input
holds a valid record and the renderer returns, the placeholder row occurs
nowhere in the text. -/
theorem placeholder_only_without_tasks (h : Host) (input : JsValue) :
    ((∀ a ∈ elementsOf input, isValidActivity a = false) →
      generateMermaidDiagram h input = .ok (String.mk (preamble ++ placeholderRow ++ closing))) ∧
    ((∃ a ∈ elementsOf input, isValidActivity a = true) →
      ∀ out, generateMermaidDiagram h input = .ok out → ¬ placeholderRow <:+: out.data) ∧
    ((∀ xs, input ≠ some (.arr xs)) → elementsOf input = []) ∧
    String.mk (preamble ++ placeholderRow ++ closing) =
      "\ngantt\n    title Activity Timeline\n    dateFormat YYYY-MM-DD HH:mm:ss\n" ++
      "    axisFormat %H:%M:%S\n    section Activities\n" ++
      "    No_activities_logged :noact, 2025-01-01 00:00:00, 2025-01-01 00:00:01\n    " ∧
    placeholderRow = "    No_activities_logged :noact, ".data ++ stampText 1735689600000 ++
      ", ".data ++ stampText (1735689600000 + 1000) := by
  refine ⟨?_, ?_, ?_, by decide, by decide⟩
  · intro hinv
    obtain ⟨blocks, hblocks, hempty⟩ := renderElements_invalid h 0 (elementsOf input) hinv
    have hfilter : blocks.filter (fun b => !b.isEmpty) = [] := by
      rw [List.filter_eq_nil_iff]
      intro b hb
      simp [hempty b hb]
    simp [generateMermaidDiagram, hblocks, hfilter, joinLines]
  · intro hvalid out hout
    unfold generateMermaidDiagram at hout
    split at hout
    · cases hout
    · rename_i blocks hblocks
      obtain ⟨hclean, hsome⟩ := renderElements_clean hblocks
      obtain ⟨b, hb, hbne⟩ := hsome hvalid
      have hkeep : ∀ x ∈ blocks.filter (fun b => !b.isEmpty), x ≠ [] := by
        intro x hx
        have := (List.mem_filter.mp hx).2
        simpa using this
      have hmem : b ∈ blocks.filter (fun b => !b.isEmpty) :=
        List.mem_filter.mpr ⟨hb, by simpa using hbne⟩
      have htasks : joinLines (blocks.filter (fun b => !b.isEmpty)) ≠ [] :=
        joinLines_ne_nil (List.ne_nil_of_mem hmem) hkeep
      have hcleanTasks : hasColonN (joinLines (blocks.filter (fun b => !b.isEmpty))) = false :=
        joinLines_clean (fun x hx => hclean x (List.mem_filter.mp hx).1)
      have hpre : preamble = preamble.dropLast ++ ['\n'] := by decide
      have hout' := Except.ok.inj hout
      simp only [List.isEmpty_eq_true, htasks, if_false] at hout'
      intro hinfix
      have htrue : hasColonN out.data = true :=
        hasColonN_of_infix hinfix (by decide)
      rw [← hout'] at htrue
      have hfalse : hasColonN (preamble ++ joinLines (blocks.filter (fun b => !b.isEmpty)) ++
          closing) = false := by
        have hcl : closing = '\n' :: "    ".data := by decide
        rw [hcl, hpre, List.append_assoc preamble.dropLast]
        apply hasColonN_append_newline
        · exact hasColonN_append_newline (by decide) hcleanTasks
        · decide
      simp only [hfalse] at htrue
      exact Bool.false_ne_true htrue
  · intro hno
    cases input with
    | none => rfl
    | some v =>
      cases v with
      | arr xs => exact absurd rfl (hno xs)
      | _ => rfl

/-- Witness for C10: a list of invalid elements gives the placeholder text; a
list with a valid record gives a text free of the placeholder row. -/
theorem placeholder_only_without_tasks_witness :
    generateMermaidDiagram (sampleHost 0 0) (some (.arr [.null, .num 3, .str "x"])) =
      .ok (String.mk (preamble ++ placeholderRow ++ closing)) ∧
    ¬ placeholderRow <:+: (String.mk (preamble ++
        "    Work :task1, 2025-01-01 10:00:00, 2025-01-01 10:30:00".data ++ closing)).data :=
  ⟨(placeholder_only_without_tasks (sampleHost 0 0) (some (.arr [.null, .num 3, .str "x"]))).1
      (by
        intro a ha
        have hl : a ∈ [Json.null, .num 3, .str "x"] := ha
        simp only [List.mem_cons, List.mem_singleton, List.mem_nil_iff, or_false] at hl
        rcases hl with h | h | h <;> subst h <;> rfl),
    (placeholder_only_without_tasks (sampleHost 0 0)
      (some (.arr [.null,
        Sample.timedRecord "2025-01-01T10:00:00Z" "2025-01-01T10:30:00Z" "Work"]))).2.1
      ⟨Sample.timedRecord "2025-01-01T10:00:00Z" "2025-01-01T10:30:00Z" "Work",
        List.mem_cons_of_mem _ (List.mem_cons_self _ _), rfl⟩ _ (by decide)⟩

end Renderer

/-! ## Failure behaviour of the renderer -/

section RendererFailures

open Diagram

set_option maxRecDepth 100000

/-- At the last instant of the `Date` range both stamps are cut to
`+275760-09-13 00:00`. Whether the host rejects that text or reads it as an
instant in the last second of the range, the end date is invalid when
`toISOString` is called on it. -/
theorem render_throws_at_range_end (h : Host)
    (hparse : ∀ t, h.parse "+275760-09-13 00:00" = some t → 8640000000000000 - 1000 < t) :
    generateMermaidDiagram h
      (some (.arr [.obj [("startTime", .num 8640000000000000),
        ("endTime", .num 8640000000000000)]])) = .error .rangeError := by
  have hs : stampText 8640000000000000 = "+275760-09-13 00:00".data := by decide
  have hstamp : fieldStamp h (h.clock 0 0) (some (.num 8640000000000000)) =
      .ok "+275760-09-13 00:00".data := by
    simp [fieldStamp, formatDate, dateOf, Json.truthy, JsDate.timeClip, hs]
  have hstamp' : fieldStamp h (h.clock 0 1) (some (.num 8640000000000000)) =
      .ok "+275760-09-13 00:00".data := by
    simp [fieldStamp, formatDate, dateOf, Json.truthy, JsDate.timeClip, hs]
  have hend : adjustEnd ((h.parse "+275760-09-13 00:00").bind JsDate.timeClip)
      ((h.parse "+275760-09-13 00:00").bind JsDate.timeClip) = none := by
    cases hp : h.parse "+275760-09-13 00:00" with
    | none => rfl
    | some t =>
      have ht := hparse t hp
      by_cases hclip : -8640000000000000 ≤ t ∧ t ≤ 8640000000000000
      · have h1 : JsDate.timeClip t = some t := by simp [JsDate.timeClip, hclip]
        have h2 : JsDate.timeClip (t + 1000) = none := by
          simp only [JsDate.timeClip]
          rw [if_neg]
          omega
        simp [adjustEnd, h1, h2]
      · have h1 : JsDate.timeClip t = none := by simp [JsDate.timeClip, hclip]
        simp [adjustEnd, h1]
  have hr : renderActivity h 0 (.obj [("startTime", .num 8640000000000000),
      ("endTime", .num 8640000000000000)]) = .error .rangeError := by
    have g1 : (Json.obj [("startTime", .num 8640000000000000),
      ("endTime", .num 8640000000000000)]).get "startTime" = some (.num 8640000000000000) := rfl
    have g2 : (Json.obj [("startTime", .num 8640000000000000),
      ("endTime", .num 8640000000000000)]).get "endTime" = some (.num 8640000000000000) := rfl
    have hmk : String.mk "+275760-09-13 00:00".data = "+275760-09-13 00:00" := rfl
    simp only [renderActivity, g1, g2, hstamp, hstamp', hmk, hend]
  simp [generateMermaidDiagram, elementsOf, renderElements, renderElement, isValidActivity, hr]

/-- C11 fails on the code. On every host, a record whose `startTime` is an
object with an own `toString` property makes `new Date(...)` throw a
`TypeError` out of `generateMermaidDiagram`. A record at the last instant of
the `Date` range makes `toISOString` throw a `RangeError`; so does a record
in the year 10000 on a host that rejects the truncated text
`+010000-01-01 00:00`, which the sample host does and V8 does not. An
unparseable `endTime` alone is absorbed, as the contract intends. -/
theorem render_can_throw :
    (∀ h : Host, generateMermaidDiagram h
        (some (.arr [.obj [("startTime", .obj [("toString", .null)])]])) =
      .error .typeError) ∧
    generateMermaidDiagram (sampleHost 0 0)
        (some (.arr [.obj [("startTime", .num 8640000000000000),
          ("endTime", .num 8640000000000000)]])) = .error .rangeError ∧
    stampText 253402300800000 = "+010000-01-01 00:00".data ∧
    generateMermaidDiagram (sampleHost 0 0)
        (some (.arr [.obj [("startTime", .num 253402300800000),
          ("endTime", .num 253402300800000)]])) = .error .rangeError ∧
    generateMermaidDiagram (sampleHost 0 0)
        (some (.arr [.obj [("startTime", .str "2025-01-01T10:00:00Z"),
          ("endTime", .str "not a date")]])) =
      .ok (String.mk (preamble ++
        "    Activity_1 :task0, 2025-01-01 10:00:00, 2025-01-01 10:00:01".data ++ closing)) := by
  refine ⟨fun h => rfl, by decide, by decide, by decide, by decide⟩

end RendererFailures

/-! ## Failure behaviour of the store -/

section StoreFailures

open ActivityManager

/-- C12 fails on the code. With a `null` element in the stored array,
`updateActivity`, a confirmed `deleteActivity`, `exportActivitiesToCSV` and
`filterActivitiesByTag` throw a `TypeError`; so do `addTagToActivity` and
`filterActivitiesByTag` on a `tags` value that is a string or a number, and
the export on a `filesModified` that is a string. A string `tags` that does
not throw is searched for the tag as a substring. Only `getActivities` absorbs
the bad shape. -/
theorem store_operations_throw_on_bad_shape :
    updateActivity (Sample.diskOf [.null]) (.obj [("id", .str "1")]) = .error .typeError ∧
    deleteActivity (Sample.diskOf [.null]) (some "Yes") (some (.str "1")) = .error .typeError ∧
    exportActivitiesToCSV (Sample.diskOf [.null]) = .error .typeError ∧
    addTagToActivity (Sample.diskOf [.obj [("id", .str "1"), ("tags", .str "abc")]])
      (some (.str "1")) (.str "x") = .error .typeError ∧
    filterActivitiesByTag (Sample.diskOf [.obj [("id", .str "1"), ("tags", .num 5)]])
      (.str "x") = .error .typeError ∧
    filterActivitiesByTag (Sample.diskOf [.null]) (.str "x") = .error .typeError ∧
    exportActivitiesToCSV (Sample.diskOf [.obj [("id", .str "1"), ("filesModified", .str "a.js")]]) =
      .error .typeError ∧
    filterActivitiesByTag (Sample.diskOf [.obj [("id", .str "1"), ("tags", .str "urgent")]])
      (.str "urg") =
      .ok ([.obj [("id", .str "1"), ("tags", .str "urgent")]],
        Sample.diskOf [.obj [("id", .str "1"), ("tags", .str "urgent")]]) ∧
    getActivities (Sample.diskOf [.null]) = [.null] := by
  refine ⟨?_, ?_, ?_, ?_, ?_, ?_, ?_, ?_, ?_⟩ <;> rfl

end StoreFailures

/-! ## No-op transitions and end time of the timer -/

section TimerStops

/-- C13: on a timer that was never started or is paused, `pause()` and
`stop()` return the state unchanged: `startTime`, `endTime`, `duration` and
`isPaused` all keep their values, so `stop()` on a paused timer neither sets
`endTime` nor adds to `duration`. -/
theorem pause_stop_ignored_when_idle (t : Timer)
    (h : t.startTime = none ∨ t.isPaused = true) (now now₁ now₂ : Int) :
    t.pause now = t ∧ t.stop now₁ now₂ = t ∧
    (t.pause now).startTime = t.startTime ∧ (t.pause now).endTime = t.endTime ∧
    (t.pause now).duration = t.duration ∧ (t.pause now).isPaused = t.isPaused ∧
    (t.stop now₁ now₂).startTime = t.startTime ∧ (t.stop now₁ now₂).endTime = t.endTime ∧
    (t.stop now₁ now₂).duration = t.duration ∧ (t.stop now₁ now₂).isPaused = t.isPaused := by
  have hp : t.pause now = t := by
    rcases h with h | h
    · simp [Timer.pause, h]
    · cases hs : t.startTime <;> simp [Timer.pause, hs, h]
  have hs : t.stop now₁ now₂ = t := by
    rcases h with h | h
    · simp [Timer.stop, h]
    · cases hs : t.startTime <;> simp [Timer.stop, hs, h]
  simp [hp, hs]

/-- Witness for C13: `stop()` on a timer paused at 5 s. -/
theorem pause_stop_ignored_when_idle_witness :
    (((Timer.fresh.start 0).pause 5000).stop 7000 7000).endTime = none ∧
    ((Timer.fresh.start 0).pause 5000).stop 7000 7000 = (Timer.fresh.start 0).pause 5000 :=
  ⟨congrArg Timer.endTime
      (pause_stop_ignored_when_idle ((Timer.fresh.start 0).pause 5000) (Or.inr rfl) 0 7000 7000).2.1,
    (pause_stop_ignored_when_idle ((Timer.fresh.start 0).pause 5000) (Or.inr rfl) 0 7000 7000).2.1⟩

/-- C14 fails on the code. After `start()` at 0 s, `stop()` at 10 s and
`start()` at 20 s, `getStartTime()` is 20 s while `getEndTime()` still returns
the 10 s of the previous stop. A `pause()` at 25 s and a `stop()` at 30 s,
which is ignored on a paused timer, leave it so: the record then built has
its start after its end. -/
theorem restart_keeps_stale_end :
    (opReadings [.start 0, .stop 10000 10000, .start 20000]).Chain' (· ≤ ·) ∧
    (runOps Timer.fresh [.start 0, .stop 10000 10000, .start 20000]).getStartTime = some 20000 ∧
    (runOps Timer.fresh [.start 0, .stop 10000 10000, .start 20000]).getEndTime 25000 = 10000 ∧
    (opReadings [.start 0, .stop 10000 10000, .start 20000, .pause 25000,
      .stop 30000 30000]).Chain' (· ≤ ·) ∧
    (runOps Timer.fresh [.start 0, .stop 10000 10000, .start 20000, .pause 25000,
      .stop 30000 30000]).getStartTime = some 20000 ∧
    (runOps Timer.fresh [.start 0, .stop 10000 10000, .start 20000, .pause 25000,
      .stop 30000 30000]).getEndTime 30000 = 10000 := by
  refine ⟨by simp [opReadings], by rfl, by rfl, by simp [opReadings], by rfl, by rfl⟩

end TimerStops

/-! ## Uniqueness of ids -/

section StoreIds

open ActivityManager

theorem strictEq_eq {x y : JsValue} (h : strictEq x y = true) : x = y := by
  unfold strictEq at h
  split at h <;> simp_all

theorem read_ok_get {a : Json} {k : String} {x : JsValue} (h : a.read k = .ok x) :
    x = a.get k := by
  cases a <;> simp_all [Json.read]

theorem idIs_true_get {a r : Json} (h : idIs (r.read "id") a = .ok true) :
    a.get "id" = r.get "id" := by
  unfold idIs at h
  split at h
  · cases h
  · rename_i x hx
    split at h
    · cases h
    · rename_i y hy
      have hxy : strictEq x y = true := by simpa using h
      rw [← read_ok_get hx, ← read_ok_get hy]
      exact strictEq_eq hxy

theorem findIndexE_some {p : Json → Except JsError Bool} {l : List Json} {i : Nat}
    (h : findIndexE p l = .ok (some i)) : ∃ a, l.get? i = some a ∧ p a = .ok true := by
  induction l generalizing i with
  | nil => simp [findIndexE] at h
  | cons b rest ih =>
    simp only [findIndexE] at h
    split at h
    · cases h
    · rename_i hb
      cases Option.some.inj (Except.ok.inj h)
      exact ⟨b, rfl, hb⟩
    · split at h
      · cases h
      · rename_i r hr
        cases r with
        | none => simp at h
        | some j =>
          have hj : j + 1 = i := by simpa using h
          subst hj
          obtain ⟨a, ha, hpa⟩ := ih hr
          exact ⟨a, by simpa using ha, hpa⟩

theorem filterE_sublist {p : Json → Except JsError Bool} {l r : List Json}
    (h : filterE p l = .ok r) : r.Sublist l := by
  induction l generalizing r with
  | nil =>
    cases Except.ok.inj h
    exact List.Sublist.refl _
  | cons b rest ih =>
    simp only [filterE] at h
    split at h
    · cases h
    · rename_i keep _
      split at h
      · cases h
      · rename_i r' hr'
        cases Except.ok.inj h
        cases keep with
        | true => simpa using (ih hr').cons₂ b
        | false => simpa using (ih hr').cons b

theorem map_set_of_eq {f : Json → JsValue} {l : List Json} {i : Nat} {a r : Json}
    (ha : l.get? i = some a) (hf : f r = f a) : (l.set i r).map f = l.map f := by
  induction l generalizing i with
  | nil => rfl
  | cons b rest ih =>
    cases i with
    | zero =>
      have hb : b = a := by simpa using ha
      subst hb
      simp [hf]
    | succ j =>
      have hj : rest.get? j = some a := by simpa using ha
      simp [ih hj]

theorem pushTag_keeps_id {activity tag updated : Json}
    (h : pushTag activity tag = .ok updated) : updated.get "id" = activity.get "id" := by
  unfold pushTag at h
  cases activity with
  | obj kvs =>
    simp only at h
    split at h
    · cases Except.ok.inj h
      exact lookup_assign_other (by decide) _ _
    · cases h
  | arr xs =>
    cases Except.ok.inj h
    rfl
  | null => cases h
  | bool b => cases h
  | num n => cases h
  | frac x => cases h
  | str s => cases h

theorem storedIds_saveActivities (d : Disk) (xs : List Json) :
    storedIds (saveActivities d xs) = xs.map (fun a => a.get "id") := rfl

theorem applyStoreCall_keeps_distinct (d : Disk) (call : StoreCall) (hd : idsDistinct d)
    (hfresh : ∀ record, call = .append record → record.get "id" ∉ storedIds d) :
    idsDistinct (applyStoreCall d call) := by
  cases call with
  | append record =>
    have hnew := hfresh record rfl
    show (storedIds (addActivity d record)).Nodup
    have hids : storedIds (addActivity d record) = storedIds d ++ [record.get "id"] := by
      simp [storedIds, addActivity, getActivities_saveActivities]
    rw [hids]
    exact List.Nodup.append hd (List.nodup_singleton _) (by simpa using hnew)
  | update record =>
    simp only [applyStoreCall]
    split
    · rename_i d' hd'
      unfold updateActivity at hd'
      simp only at hd'
      split at hd'
      · cases hd'
      · cases Except.ok.inj hd'
        exact hd
      · rename_i index hfind
        cases Except.ok.inj hd'
        obtain ⟨a, ha, hpa⟩ := findIndexE_some hfind
        have hid := idIs_true_get hpa
        show (storedIds (saveActivities d ((getActivities d).set index record))).Nodup
        rw [storedIds_saveActivities, map_set_of_eq ha hid.symm]
        exact hd
    · exact hd
  | remove answer id =>
    simp only [applyStoreCall]
    split
    · rename_i d' hd'
      unfold deleteActivity at hd'
      split at hd'
      · split at hd'
        · cases hd'
        · rename_i kept hkept
          cases Except.ok.inj hd'
          show (storedIds (saveActivities d kept)).Nodup
          rw [storedIds_saveActivities]
          exact List.Nodup.sublist ((filterE_sublist hkept).map _) hd
      · cases Except.ok.inj hd'
        exact hd
    · exact hd
  | removeAll answer =>
    simp only [applyStoreCall, deleteAllActivities]
    split
    · exact List.nodup_nil
    · exact hd
  | addTag id tag =>
    simp only [applyStoreCall]
    split
    · rename_i d' hd'
      unfold addTagToActivity at hd'
      simp only at hd'
      split at hd'
      · cases hd'
      · cases Except.ok.inj hd'
        exact hd
      · rename_i index hfind
        split at hd'
        · cases Except.ok.inj hd'
          exact hd
        · rename_i activity hget
          split at hd'
          · split at hd'
            · cases hd'
            · rename_i updated hpush
              cases Except.ok.inj hd'
              show (storedIds (saveActivities d ((getActivities d).set index updated))).Nodup
              rw [storedIds_saveActivities, map_set_of_eq hget (pushTag_keeps_id hpush)]
              exact hd
          · cases Except.ok.inj hd'
            exact hd
    · exact hd

/-- C15, as stated, fails: appending two records with the id `1` to an empty
store leaves two stored records with that id. -/
theorem append_twice_duplicates_id :
    getActivities emptyDisk = [] ∧
    storedIds (runStore emptyDisk
      [.append (.obj [("id", .str "1")]), .append (.obj [("id", .str "1")])]) =
      [some (.str "1"), some (.str "1")] ∧
    ¬ idsDistinct (runStore emptyDisk
      [.append (.obj [("id", .str "1")]), .append (.obj [("id", .str "1")])]) := by
  refine ⟨rfl, rfl, ?_⟩
  have h : storedIds (runStore emptyDisk
      [.append (.obj [("id", .str "1")]), .append (.obj [("id", .str "1")])]) =
      [some (.str "1"), some (.str "1")] := rfl
  simp [idsDistinct, h]

/-- C15, amended: from a store whose ids are pairwise distinct (an empty one
in particular), every sequence of append, update, remove, removeAll and
addTag calls in which each appended record has an id not stored at that
moment leads to a store whose ids are pairwise distinct. -/
theorem ids_distinct_when_appends_fresh (d : Disk) (calls : List StoreCall)
    (hd : idsDistinct d) (hfresh : appendsFresh d calls) :
    idsDistinct (runStore d calls) := by
  induction calls generalizing d with
  | nil => exact hd
  | cons call rest ih =>
    have hstep : idsDistinct (applyStoreCall d call) := by
      apply applyStoreCall_keeps_distinct d call hd
      intro record hcall
      subst hcall
      exact hfresh.1
    have hrest : appendsFresh (applyStoreCall d call) rest := by
      cases call with
      | append record => exact hfresh.2
      | update record => exact hfresh
      | remove answer id => exact hfresh
      | removeAll answer => exact hfresh
      | addTag id tag => exact hfresh
    exact ih _ hstep hrest

/-- Witness for C15: six calls on an empty store, the last one appending
again an id that was removed before. -/
theorem ids_distinct_when_appends_fresh_witness :
    idsDistinct (runStore emptyDisk
      [.append (.obj [("id", .str "1")]), .append (.obj [("id", .str "2")]),
        .addTag (some (.str "1")) (.str "urgent"),
        .update (.obj [("id", .str "2"), ("description", .str "new")]),
        .remove (some "Yes") (some (.str "1")), .append (.obj [("id", .str "1")])]) :=
  ids_distinct_when_appends_fresh emptyDisk _ List.nodup_nil
    ⟨by simp [storedIds, emptyDisk, getActivities],
     by
      refine ⟨?_, ?_⟩
      · show some (Json.str "2") ∉ [some (Json.str "1")]
        simp
      · refine ⟨?_, trivial⟩
        show some (Json.str "1") ∉ [some (Json.str "2")]
        simp⟩

end StoreIds

end ActivityFlow
